import Mathlib

/-!
Shallow embedding of the DPC2 L2 prefetchers from `src/src/fdp.c` (FDP,
feedback-directed stream prefetcher) and `src/src/ampm.c` (AMPM-lite
access-map prefetcher).

Modelling conventions:
* C `unsigned long long` values (addresses, pages, cycle counts) are `Nat`;
  none of the modelled computations can overflow 64 bits on the inputs the
  simulator supplies, so no `% 2^64` is inserted.
* C `int` fields that can go negative (`pf_index`, `direction`,
  `aggressive_level`, the `l2_get_way` result) are `Int`; counters that are
  only ever incremented or reset are `Nat`.
* C `float` totals (`used_total`, ...) are modelled as exact rationals
  (`Rat`); the constants 0.5, 1e-3, 0.40, 0.75, 0.01, 0.005 are the exact
  rationals 1/2, 1/1000, 2/5, 3/4, 1/100, 1/200.  Every claim settled here
  is independent of float rounding.
* The fixed-size C arrays (`detectors[64]`, `mshr_*[2048]`, the per-page
  64-entry maps) are `List`s of that length; the unbounded-domain bit
  arrays `useful_bit[L2_SET_COUNT][L2_ASSOCIATIVITY]` and
  `prefetch_evict[4096]` are total functions, updated pointwise
  (`L2_SET_COUNT`/`L2_ASSOCIATIVITY` come from the repository header
  `inc/prefetcher.h`, which is not under `src/`; per the spec they are
  build-time constants and the prefetcher only reads/writes single cells,
  so a total function is faithful).
* Simulator oracles (`l2_get_set`, `l2_get_way`, `get_l2_mshr_occupancy`,
  `get_current_cycle`) are inputs carried by each event: `sets`/`ways` are
  keyed by the queried address, occupancy by the scan position of the
  query, the cycle is a single value per event.
* `assert` failures (the range assert on the hit path and the
  MSHR-mirror-full assert inside the prefetch registration) make the
  operation return `none`; `l2_prefetch_line` calls are collected in an
  output list in call order.
-/

namespace DPC

/-- Fill destination of an issued prefetch (`FILL_L2` / `FILL_LLC`). -/
inductive FillLevel
  | l2
  | llc
deriving DecidableEq, Repr

/-- One `l2_prefetch_line(0, trigger, addr, level)` call. -/
structure PF where
  trigger : Nat
  addr : Nat
  level : FillLevel
deriving DecidableEq, Repr

/-- One slot of the prefetch-tracking MSHR mirror
(`mshr_valid[i]`, `mshr_addr[i]`, `late_bit[i]`). -/
structure MSHREntry where
  valid : Bool
  addr : Nat
  late : Bool
deriving DecidableEq, Repr

/-- Pollution hash `vh`: `(cl & 0xfff) ^ ((cl >> 12) & 0xfff)`. -/
def vh (cl : Nat) : Nat := (cl &&& 0xfff) ^^^ ((cl >>> 12) &&& 0xfff)

/-- Index-carrying linear scan (the C `while`/`for` search loops over a
table, written tail-recursively so that concrete runs evaluate in
constant stack): first index at or after `i` whose element satisfies
`p`. -/
def scanFrom (p : α → Bool) : List α → Nat → Option Nat
  | [], _ => none
  | x :: r, i => if p x then some i else scanFrom p r (i + 1)

/-- First index whose element satisfies `p`. -/
def scanIdx (p : α → Bool) (l : List α) : Option Nat := scanFrom p l 0

/-- Tail-recursive counting loop over a table. -/
def countLoop (p : α → Bool) : List α → Nat → Nat
  | [], acc => acc
  | x :: r, acc => countLoop p r (if p x then acc + 1 else acc)

/-- Linear scan for a valid mirror entry holding cache line `cl`
(the `while (mshr_index < MSHR_SIZE)` search loops). -/
def mshrFind (m : List MSHREntry) (cl : Nat) : Option Nat :=
  scanIdx (fun e => e.valid && e.addr == cl) m

/-- Linear scan for the first invalid mirror slot. -/
def mshrFree (m : List MSHREntry) : Option Nat :=
  scanIdx (fun e => !e.valid) m

/-- Number of valid mirror entries (the `for (j …) if (mshr_valid[j])`
count in the FDP interval close). -/
def countValid (m : List MSHREntry) : Nat :=
  countLoop (fun e => e.valid) m 0

/-- Number of valid mirror entries holding cache line `cl`. -/
def countValidAt (m : List MSHREntry) (cl : Nat) : Nat :=
  countLoop (fun e => e.valid && e.addr == cl) m 0

/-- The mirror registration block (`// Add to MSHR`): a duplicate scan
for `searchCl`, and if absent, allocation of the first invalid slot for
cache line `insCl` with `late := true`.  In `fdp.c` the duplicate scan
searches the prefetched line itself (`searchCl = insCl =
pf_address >> 6`); in `ampm.c` it searches the *triggering* line
(`searchCl = cl_address`) while inserting `pf_address >> 6`.  `none`
models the failing `assert(mshr_index < MSHR_SIZE)` when every slot is
valid. -/
def mshrInsert (m : List MSHREntry) (searchCl insCl : Nat) :
    Option (List MSHREntry) :=
  match mshrFind m searchCl with
  | some _ => some m
  | none =>
    match mshrFree m with
    | some j => some (m.set j ⟨true, insCl, true⟩)
    | none => none

/-- Pointwise update of a one-dimensional bit array. -/
def upd1 (f : Nat → Bool) (a : Nat) (v : Bool) : Nat → Bool :=
  fun x => if x = a then v else f x

/-- Pointwise update of a two-dimensional bit array. -/
def upd2 (f : Nat → Nat → Bool) (a b : Nat) (v : Bool) : Nat → Nat → Bool :=
  fun x y => if x = a ∧ y = b then v else f x y

/-- Snap-to-zero applied to each smoothed total after the EWMA step:
values below `1e-3` become 0. -/
def snap (q : Rat) : Rat := if q < 1 / 1000 then 0 else q

/-- The aggressiveness update rule `Δ` (the `switch (acc_level)` block,
identical in both variants). -/
def updateRule (accLevel latLevel polLevel : Nat) : Int :=
  match accLevel with
  | 0 => if latLevel ≠ 0 then -1 else if polLevel ≠ 0 then -1 else 0
  | 1 =>
    if latLevel ≠ 0 then (if polLevel ≠ 0 then -1 else 1)
    else if polLevel ≠ 0 then -1 else 0
  | _ => if latLevel ≠ 0 then 1 else if polLevel ≠ 0 then -1 else 0

/-- Saturation of the aggressiveness level into `[1, 5]` (the two
`if` statements after `aggressive_level += update_rule`). -/
def clamp15 (x : Int) : Int := if x > 5 then 5 else if x < 1 then 1 else x

/-- Accuracy classification: `0` if `acc < 0.40`, `1` if `acc < 0.75`,
else `2`. -/
def accLevelOf (acc : Rat) : Nat :=
  if acc < 2 / 5 then 0 else if acc < 3 / 4 then 1 else 2

/-- Lateness classification: `1` iff `lat ≥ 0.01`. -/
def latLevelOf (lat : Rat) : Nat := if lat < 1 / 100 then 0 else 1

/-- Pollution classification: `1` iff `pol ≥ 0.005`. -/
def polLevelOf (pol : Rat) : Nat := if pol < 1 / 200 then 0 else 1

/-- A fill event delivered to `l2_cache_fill`. -/
structure FillEvent where
  addr : Nat
  set : Nat
  way : Nat
  prefetch : Bool
  evicted : Nat

namespace FDP

/-- One stream detector (`stream_detector_t`). -/
structure Detector where
  page : Nat
  direction : Int
  confidence : Nat
  pf_index : Int
deriving DecidableEq, Repr

/-- The whole mutable state of `fdp.c`. -/
structure State where
  detectors : List Detector
  replacement_index : Nat
  useful : Nat → Nat → Bool
  mshr : List MSHREntry
  pollution : Nat → Bool
  used_cnt : Nat
  prefetch_cnt : Nat
  late_cnt : Nat
  miss_cnt : Nat
  miss_prefetch_cnt : Nat
  evict_cnt : Nat
  used_total : Rat
  prefetch_total : Rat
  late_total : Rat
  miss_total : Rat
  miss_prefetch_total : Rat
  prefetch_degree : Nat
  stream_window : Nat
  aggressive_level : Int

/-- `l2_prefetcher_initialize`: the zero-initialized start state. -/
def init : State where
  detectors := List.replicate 64 ⟨0, 0, 0, -1⟩
  replacement_index := 0
  useful := fun _ _ => false
  mshr := List.replicate 2048 ⟨false, 0, false⟩
  pollution := fun _ => false
  used_cnt := 0
  prefetch_cnt := 0
  late_cnt := 0
  miss_cnt := 0
  miss_prefetch_cnt := 0
  evict_cnt := 0
  used_total := 0
  prefetch_total := 0
  late_total := 0
  miss_total := 0
  miss_prefetch_total := 0
  prefetch_degree := 2
  stream_window := 16
  aggressive_level := 3

/-- An access event delivered to `l2_prefetcher_operate`, together with
the oracle answers the simulator would return during this event. -/
structure AccessEvent where
  addr : Nat
  ip : Nat
  hit : Bool
  sets : Nat → Nat
  ways : Nat → Int
  occs : Nat → Nat

/-- The hit/miss accounting prelude of `l2_prefetcher_operate`
(useful-bit consumption on a hit; miss, lateness and pollution counting
on a miss).  `none` models a failing `assert(w >= 0)`. -/
def accessCounters (ev : AccessEvent) (s : State) : Option State :=
  let cl := ev.addr >>> 6
  if ev.hit then
    let st := ev.sets ev.addr
    let w := ev.ways ev.addr
    if w < 0 then none
    else
      let wn := w.toNat
      some (if s.useful st wn then
        { s with used_cnt := s.used_cnt + 1, useful := upd2 s.useful st wn false }
      else s)
  else
    let s1 := { s with miss_cnt := s.miss_cnt + 1 }
    let s2 :=
      match mshrFind s1.mshr cl with
      | some i =>
        let e := s1.mshr.getD i ⟨false, 0, false⟩
        if e.late then
          { s1 with
            late_cnt := s1.late_cnt + 1
            used_cnt := s1.used_cnt + 1
            mshr := s1.mshr.set i { e with late := false } }
        else s1
      | none => s1
    some (if s2.pollution (vh cl) then
      { s2 with miss_prefetch_cnt := s2.miss_prefetch_cnt + 1 }
    else s2)

/-- The prefetch-issue loop (`for (i = 0; i < prefetch_degree; i++)`):
advances `pf_index`, stops on leaving `[0, 63]`, issues to LLC when the
MSHR occupancy exceeds 8 and otherwise to L2, registering an L2 prefetch
in the mirror when the line is absent from the cache.  The fuel is the
remaining iteration count, `k` the iteration index used to query the
occupancy oracle.  `none` models the failing
`assert(mshr_index < MSHR_SIZE)` when no free mirror slot exists. -/
def pfLoop (ev : AccessEvent) (page : Nat) :
    Detector → List MSHREntry → Nat → Nat →
    Option (Detector × List MSHREntry × List PF)
  | d, m, _, 0 => some (d, m, [])
  | d, m, k, fuel + 1 =>
    let d' : Detector := { d with pf_index := d.pf_index + d.direction }
    if d'.pf_index < 0 ∨ d'.pf_index > 63 then some (d', m, [])
    else
      let pfAddr := (page <<< 12) + (d'.pf_index.toNat <<< 6)
      if ev.occs k > 8 then
        (pfLoop ev page d' m (k + 1) fuel).map
          fun r => (r.1, r.2.1, ⟨ev.addr, pfAddr, .llc⟩ :: r.2.2)
      else
        let w := ev.ways pfAddr
        let rest :=
          if w ≠ -1 then
            pfLoop ev page d' m (k + 1) fuel
          else
            match mshrInsert m (pfAddr >>> 6) (pfAddr >>> 6) with
            | some m' => pfLoop ev page d' m' (k + 1) fuel
            | none => none
        rest.map fun r => (r.1, r.2.1, ⟨ev.addr, pfAddr, .l2⟩ :: r.2.2)

/-- Detector lookup with FIFO allocation on a miss of the detector
table: the index of the detector monitoring `page`, together with the
(possibly updated) state — a new page resets the slot at
`replacement_index`, which then advances modulo 64. -/
def detectorLookup (s : State) (page off : Nat) : Nat × State :=
  match scanIdx (fun d => d.page == page) s.detectors with
  | some i => (i, s)
  | none =>
    (s.replacement_index,
     { s with
       replacement_index :=
         if s.replacement_index + 1 ≥ 64 then 0 else s.replacement_index + 1
       detectors := s.detectors.set s.replacement_index ⟨page, 0, 0, (off : Int)⟩ })

/-- Training on the new access: within the stream window, a monotonic
step raises the confidence (resetting it on a direction reversal) and
sets the direction; `off = pf_index` or a step at or past the window
does not train. -/
def train (d : Detector) (off window : Nat) : Detector :=
  if (off : Int) > d.pf_index then
    if (off : Int) - d.pf_index < (window : Int) then
      { d with
        confidence := if d.direction = -1 then 0 else d.confidence + 1
        direction := 1 }
    else d
  else if (off : Int) < d.pf_index then
    if d.pf_index - (off : Int) < (window : Int) then
      { d with
        confidence := if d.direction = 1 then 0 else d.confidence + 1
        direction := -1 }
    else d
  else d

/-- `l2_prefetcher_operate`: counter accounting, detector
lookup/allocation, training, and the prefetch loop (entered when the
trained confidence reaches 2). -/
def operate (ev : AccessEvent) (s0 : State) : Option (State × List PF) :=
  match accessCounters ev s0 with
  | none => none
  | some s =>
    let cl := ev.addr >>> 6
    let page := cl >>> 6
    let off : Nat := cl &&& 63
    let p := detectorLookup s page off
    let d := train (p.2.detectors.getD p.1 ⟨0, 0, 0, -1⟩) off p.2.stream_window
    if d.confidence ≥ 2 then
      match pfLoop ev page d p.2.mshr 0 p.2.prefetch_degree with
      | none => none
      | some (d', m', outs) =>
        some ({ p.2 with detectors := p.2.detectors.set p.1 d', mshr := m' }, outs)
    else
      some ({ p.2 with detectors := p.2.detectors.set p.1 d }, [])

/-- The prefetch count fed into the FDP EWMA: the raw interval counter
plus the number of valid mirror entries, raised to `used_cnt` if
smaller (`fdp.c` lines 370-375). -/
def adjPrefetchCnt (s : State) : Nat :=
  let pc0 := s.prefetch_cnt + countValid s.mshr
  if pc0 < s.used_cnt then s.used_cnt else pc0

/-- The EWMA / snap / counter-reset part of the FDP interval close. -/
def ewma (s : State) : State :=
  { s with
    used_total := snap (1 / 2 * s.used_total + 1 / 2 * (s.used_cnt : Rat))
    prefetch_total := snap (1 / 2 * s.prefetch_total + 1 / 2 * (adjPrefetchCnt s : Rat))
    late_total := snap (1 / 2 * s.late_total + 1 / 2 * (s.late_cnt : Rat))
    miss_total := snap (1 / 2 * s.miss_total + 1 / 2 * (s.miss_cnt : Rat))
    miss_prefetch_total := snap (1 / 2 * s.miss_prefetch_total + 1 / 2 * (s.miss_prefetch_cnt : Rat))
    used_cnt := 0
    prefetch_cnt := 0
    late_cnt := 0
    miss_cnt := 0
    miss_prefetch_cnt := 0 }

/-- Accuracy metric computed by the interval close (`used_total /
prefetch_total`, 0 on a zero divisor), read from the post-EWMA totals. -/
def accMetric (s : State) : Rat :=
  if s.prefetch_total = 0 then 0 else s.used_total / s.prefetch_total

/-- Lateness metric (`late_total / used_total`, 0 on a zero divisor). -/
def latMetric (s : State) : Rat :=
  if s.used_total = 0 then 0 else s.late_total / s.used_total

/-- Pollution metric (`miss_prefetch_total / miss_total`, 0 on a zero
divisor). -/
def polMetric (s : State) : Rat :=
  if s.miss_total = 0 then 0 else s.miss_prefetch_total / s.miss_total

/-- The knob table of the FDP variant
(`switch (aggressive_level)`): `(stream_window, prefetch_degree)` for
levels 1..5; any other level leaves the knobs unchanged. -/
def knobTable (lvl : Int) (cur : Nat × Nat) : Nat × Nat :=
  if lvl = 1 then (4, 1)
  else if lvl = 2 then (8, 1)
  else if lvl = 3 then (16, 2)
  else if lvl = 4 then (32, 4)
  else if lvl = 5 then (64, 4)
  else cur

/-- The metric classification / level update / knob reconfiguration
part of the FDP interval close, operating on the post-EWMA state. -/
def levelStep (s : State) : State :=
  let lvl := clamp15 (s.aggressive_level +
    updateRule (accLevelOf (accMetric s)) (latLevelOf (latMetric s))
      (polLevelOf (polMetric s)))
  let knobs := knobTable lvl (s.stream_window, s.prefetch_degree)
  { s with
    aggressive_level := lvl
    stream_window := knobs.1
    prefetch_degree := knobs.2 }

/-- The interval-close block of `l2_cache_fill` (entered when
`evict_cnt` reaches `T_INTERVAL`), for the FDP variant. -/
def close (s : State) : State := levelStep (ewma s)

/-- The body of `l2_cache_fill` before the interval check: eviction
counting, mirror deallocation with useful-bit seeding, and the
pollution-vector updates. -/
def fillBody (e : FillEvent) (s : State) : State :=
  let s := if e.evicted ≠ 0 then { s with evict_cnt := s.evict_cnt + 1 } else s
  let cl := e.addr >>> 6
  let vEv := vh (e.evicted >>> 6)
  let s :=
    match mshrFind s.mshr cl with
    | some i =>
      let ent := s.mshr.getD i ⟨false, 0, false⟩
      { s with
        useful := upd2 s.useful e.set e.way ent.late
        mshr := s.mshr.set i ⟨false, ent.addr, false⟩ }
    | none => s
  let s :=
    if e.prefetch then
      let s := { s with prefetch_cnt := s.prefetch_cnt + 1 }
      if e.evicted ≠ 0 then { s with pollution := upd1 s.pollution vEv true } else s
    else
      let s := { s with useful := upd2 s.useful e.set e.way false }
      if e.evicted ≠ 0 then { s with pollution := upd1 s.pollution vEv false } else s
  { s with pollution := upd1 s.pollution (vh cl) false }

/-- `l2_cache_fill`: the fill body followed by the interval close when
`evict_cnt` has reached `T_INTERVAL = 512`. -/
def fill (e : FillEvent) (s : State) : State :=
  let s := fillBody e s
  if s.evict_cnt = 512 then close { s with evict_cnt := 0 } else s

/-- An event delivered to the FDP prefetcher. -/
inductive Ev
  | access (a : AccessEvent)
  | fill (f : FillEvent)

/-- One event step: `none` on an assertion failure, otherwise the next
state and the prefetches issued during the event. -/
def step (s : State) : Ev → Option (State × List PF)
  | .access a => operate a s
  | .fill f => some (fill f s, [])

/-- Run a list of events from a state, recording for each event the
issued prefetches and the aggressiveness level after the event. -/
def runAux : State → List Ev → Option (State × List (List PF × Int))
  | s, [] => some (s, [])
  | s, e :: es =>
    match step s e with
    | none => none
    | some (s', out) =>
      match runAux s' es with
      | none => none
      | some (s'', tr) => some (s'', (out, s'.aggressive_level) :: tr)

/-- Run a list of events from the initial state. -/
def run (es : List Ev) : Option (State × List (List PF × Int)) :=
  runAux init es

end FDP

namespace AMPM

/-- One page entry of the access-map table (`ampm_page_t`). -/
structure AmpmPage where
  page : Nat
  access_map : List Bool
  pf_map : List Bool
  lru : Nat
deriving DecidableEq, Repr

/-- The whole mutable state of `ampm.c`. -/
structure State where
  pages : List AmpmPage
  useful : Nat → Nat → Bool
  mshr : List MSHREntry
  pollution : Nat → Bool
  used_cnt : Nat
  prefetch_cnt : Nat
  late_cnt : Nat
  miss_cnt : Nat
  miss_prefetch_cnt : Nat
  evict_cnt : Nat
  used_total : Rat
  prefetch_total : Rat
  late_total : Rat
  miss_total : Rat
  miss_prefetch_total : Rat
  prefetch_degree : Nat
  stream_window : Nat
  aggressive_level : Int

/-- `l2_prefetcher_initialize`: the zero-initialized start state. -/
def init : State where
  pages := List.replicate 64
    ⟨0, List.replicate 64 false, List.replicate 64 false, 0⟩
  useful := fun _ _ => false
  mshr := List.replicate 2048 ⟨false, 0, false⟩
  pollution := fun _ => false
  used_cnt := 0
  prefetch_cnt := 0
  late_cnt := 0
  miss_cnt := 0
  miss_prefetch_cnt := 0
  evict_cnt := 0
  used_total := 0
  prefetch_total := 0
  late_total := 0
  miss_total := 0
  miss_prefetch_total := 0
  prefetch_degree := 2
  stream_window := 16
  aggressive_level := 3

/-- An access event delivered to `l2_prefetcher_operate`, together with
the oracle answers the simulator would return during this event
(`occsPos i` / `occsNeg i` are the occupancy answers for the issue made
at stride `i` of the positive / negative scan). -/
structure AccessEvent where
  addr : Nat
  ip : Nat
  hit : Bool
  sets : Nat → Nat
  ways : Nat → Int
  cycle : Nat
  occsPos : Nat → Nat
  occsNeg : Nat → Nat

/-- The hit/miss accounting prelude of `l2_prefetcher_operate`
(textually identical to the FDP one). -/
def accessCounters (ev : AccessEvent) (s : State) : Option State :=
  let cl := ev.addr >>> 6
  if ev.hit then
    let st := ev.sets ev.addr
    let w := ev.ways ev.addr
    if w < 0 then none
    else
      let wn := w.toNat
      some (if s.useful st wn then
        { s with used_cnt := s.used_cnt + 1, useful := upd2 s.useful st wn false }
      else s)
  else
    let s1 := { s with miss_cnt := s.miss_cnt + 1 }
    let s2 :=
      match mshrFind s1.mshr cl with
      | some i =>
        let e := s1.mshr.getD i ⟨false, 0, false⟩
        if e.late then
          { s1 with
            late_cnt := s1.late_cnt + 1
            used_cnt := s1.used_cnt + 1
            mshr := s1.mshr.set i { e with late := false } }
        else s1
      | none => s1
    some (if s2.pollution (vh cl) then
      { s2 with miss_prefetch_cnt := s2.miss_prefetch_cnt + 1 }
    else s2)

/-- The LRU victim search (`lru_index` loop): index of the
least-recently-used page slot. -/
def lruScan (pages : List AmpmPage) : Nat :=
  ((List.range 64).foldl
    (fun (p : Nat × Nat) i =>
      let l := (pages.getD i ⟨0, [], [], 0⟩).lru
      if l < p.2 then (i, l) else p)
    (0, (pages.getD 0 ⟨0, [], [], 0⟩).lru)).1

/-- The positive scan (`for (i = 1; i <= 16; i++)` with
`c1 = off - i`, `c2 = off - 2i`, `p = off + i`): breaks when `c2 < 0`,
`p > 63` or the degree is reached; issues to L2 when the occupancy is
below 8 and to LLC otherwise, marking `pf_map[p]`.  Arguments after the
access map: current `pf_map`, issue count, stride `i`, remaining fuel. -/
def posScan (occs : Nat → Nat) (trig page off deg : Nat) (am : List Bool) :
    List Bool → Nat → Nat → Nat → List Bool × List PF
  | pf, _, _, 0 => (pf, [])
  | pf, cnt, i, fuel + 1 =>
    if (off : Int) - 2 * i < 0 then (pf, [])
    else if (off : Int) + i > 63 then (pf, [])
    else if deg ≤ cnt then (pf, [])
    else
      let p := off + i
      let c1 := off - i
      let c2 := off - 2 * i
      if am.getD p false then posScan occs trig page off deg am pf cnt (i + 1) fuel
      else if pf.getD p false then posScan occs trig page off deg am pf cnt (i + 1) fuel
      else if am.getD c1 false && am.getD c2 false then
        let pfAddr := (page <<< 12) + (p <<< 6)
        let lvl := if occs i < 8 then FillLevel.l2 else FillLevel.llc
        let r := posScan occs trig page off deg am (pf.set p true) (cnt + 1) (i + 1) fuel
        (r.1, ⟨trig, pfAddr, lvl⟩ :: r.2)
      else posScan occs trig page off deg am pf cnt (i + 1) fuel

/-- The negative scan (`c1 = off + i`, `c2 = off + 2i`, `p = off - i`):
breaks when `c2 > 63`, `p < 0` or the degree is reached; issues to L2
when the occupancy is below 12 (registering the prefetch in the MSHR
mirror after a duplicate search keyed on the *triggering* cache line
`trigCl`, as in the source) and to LLC otherwise.  `none` models the
failing `assert(mshr_index < MSHR_SIZE)`. -/
def negScan (occs : Nat → Nat) (trig trigCl page off deg : Nat) (am : List Bool) :
    List Bool → List MSHREntry → Nat → Nat → Nat →
    Option (List Bool × List MSHREntry × List PF)
  | pf, m, _, _, 0 => some (pf, m, [])
  | pf, m, cnt, i, fuel + 1 =>
    if (off : Int) + 2 * i > 63 then some (pf, m, [])
    else if (off : Int) - i < 0 then some (pf, m, [])
    else if deg ≤ cnt then some (pf, m, [])
    else
      let p := off - i
      let c1 := off + i
      let c2 := off + 2 * i
      if am.getD p false then negScan occs trig trigCl page off deg am pf m cnt (i + 1) fuel
      else if pf.getD p false then negScan occs trig trigCl page off deg am pf m cnt (i + 1) fuel
      else if am.getD c1 false && am.getD c2 false then
        let pfAddr := (page <<< 12) + (p <<< 6)
        if occs i < 12 then
          match mshrInsert m trigCl (pfAddr >>> 6) with
          | none => none
          | some m'' =>
            (negScan occs trig trigCl page off deg am (pf.set p true) m'' (cnt + 1) (i + 1) fuel).map
              fun r => (r.1, r.2.1, ⟨trig, pfAddr, .l2⟩ :: r.2.2)
        else
          (negScan occs trig trigCl page off deg am (pf.set p true) m (cnt + 1) (i + 1) fuel).map
            fun r => (r.1, r.2.1, ⟨trig, pfAddr, .llc⟩ :: r.2.2)
      else negScan occs trig trigCl page off deg am pf m cnt (i + 1) fuel

/-- Page-table lookup with LRU replacement on a miss: the index of the
entry tracking `page` and the (possibly updated) table — a new page
resets the least-recently-used slot with both maps zeroed. -/
def pageLookup (pages : List AmpmPage) (page : Nat) : Nat × List AmpmPage :=
  match scanIdx (fun pg => pg.page == page) pages with
  | some i => (i, pages)
  | none =>
    let j := lruScan pages
    (j, pages.set j ⟨page, List.replicate 64 false, List.replicate 64 false,
      (pages.getD j ⟨0, [], [], 0⟩).lru⟩)

/-- `l2_prefetcher_operate`: counter accounting, page table
lookup/replacement, LRU and access-map update, positive scan, negative
scan. -/
def operate (ev : AccessEvent) (s0 : State) : Option (State × List PF) :=
  match accessCounters ev s0 with
  | none => none
  | some s =>
    let cl := ev.addr >>> 6
    let page := cl >>> 6
    let off : Nat := cl &&& 63
    let p := pageLookup s.pages page
    let pg0 := p.2.getD p.1 ⟨0, [], [], 0⟩
    let pg := { pg0 with lru := ev.cycle, access_map := pg0.access_map.set off true }
    let ps :=
      posScan ev.occsPos ev.addr page off s.prefetch_degree pg.access_map
        pg.pf_map 0 1 16
    match negScan ev.occsNeg ev.addr cl page off s.prefetch_degree pg.access_map
        ps.1 s.mshr 0 1 16 with
    | none => none
    | some (pfMap2, m', outsNeg) =>
      some ({ s with
        pages := p.2.set p.1 { pg with pf_map := pfMap2 }
        mshr := m' }, ps.2 ++ outsNeg)

/-- The EWMA / snap / counter-reset part of the AMPM interval close
(unlike the FDP variant, the raw interval counters feed the EWMA). -/
def ewma (s : State) : State :=
  { s with
    used_total := snap (1 / 2 * s.used_total + 1 / 2 * (s.used_cnt : Rat))
    prefetch_total := snap (1 / 2 * s.prefetch_total + 1 / 2 * (s.prefetch_cnt : Rat))
    late_total := snap (1 / 2 * s.late_total + 1 / 2 * (s.late_cnt : Rat))
    miss_total := snap (1 / 2 * s.miss_total + 1 / 2 * (s.miss_cnt : Rat))
    miss_prefetch_total := snap (1 / 2 * s.miss_prefetch_total + 1 / 2 * (s.miss_prefetch_cnt : Rat))
    used_cnt := 0
    prefetch_cnt := 0
    late_cnt := 0
    miss_cnt := 0
    miss_prefetch_cnt := 0 }

/-- Accuracy metric of the AMPM interval close. -/
def accMetric (s : State) : Rat :=
  if s.prefetch_total = 0 then 0 else s.used_total / s.prefetch_total

/-- Lateness metric of the AMPM interval close. -/
def latMetric (s : State) : Rat :=
  if s.used_total = 0 then 0 else s.late_total / s.used_total

/-- Pollution metric of the AMPM interval close. -/
def polMetric (s : State) : Rat :=
  if s.miss_total = 0 then 0 else s.miss_prefetch_total / s.miss_total

/-- The knob table of the AMPM variant: only `prefetch_degree` is
reconfigured. -/
def degTable (lvl : Int) (cur : Nat) : Nat :=
  if lvl = 1 then 1
  else if lvl = 2 then 1
  else if lvl = 3 then 2
  else if lvl = 4 then 4
  else if lvl = 5 then 4
  else cur

/-- The metric classification / level update / knob reconfiguration
part of the AMPM interval close. -/
def levelStep (s : State) : State :=
  let lvl := clamp15 (s.aggressive_level +
    updateRule (accLevelOf (accMetric s)) (latLevelOf (latMetric s))
      (polLevelOf (polMetric s)))
  { s with
    aggressive_level := lvl
    prefetch_degree := degTable lvl s.prefetch_degree }

/-- The interval-close block of `l2_cache_fill` for the AMPM variant. -/
def close (s : State) : State := levelStep (ewma s)

/-- The body of `l2_cache_fill` before the interval check (textually
identical to the FDP one). -/
def fillBody (e : FillEvent) (s : State) : State :=
  let s := if e.evicted ≠ 0 then { s with evict_cnt := s.evict_cnt + 1 } else s
  let cl := e.addr >>> 6
  let vEv := vh (e.evicted >>> 6)
  let s :=
    match mshrFind s.mshr cl with
    | some i =>
      let ent := s.mshr.getD i ⟨false, 0, false⟩
      { s with
        useful := upd2 s.useful e.set e.way ent.late
        mshr := s.mshr.set i ⟨false, ent.addr, false⟩ }
    | none => s
  let s :=
    if e.prefetch then
      let s := { s with prefetch_cnt := s.prefetch_cnt + 1 }
      if e.evicted ≠ 0 then { s with pollution := upd1 s.pollution vEv true } else s
    else
      let s := { s with useful := upd2 s.useful e.set e.way false }
      if e.evicted ≠ 0 then { s with pollution := upd1 s.pollution vEv false } else s
  { s with pollution := upd1 s.pollution (vh cl) false }

/-- `l2_cache_fill`: the fill body followed by the interval close when
`evict_cnt` has reached `T_INTERVAL = 512`. -/
def fill (e : FillEvent) (s : State) : State :=
  let s := fillBody e s
  if s.evict_cnt = 512 then close { s with evict_cnt := 0 } else s

/-- An event delivered to the AMPM prefetcher. -/
inductive Ev
  | access (a : AccessEvent)
  | fill (f : FillEvent)

/-- One event step. -/
def step (s : State) : Ev → Option (State × List PF)
  | .access a => operate a s
  | .fill f => some (fill f s, [])

/-- Run a list of events from a state, recording for each event the
issued prefetches and the aggressiveness level after the event. -/
def runAux : State → List Ev → Option (State × List (List PF × Int))
  | s, [] => some (s, [])
  | s, e :: es =>
    match step s e with
    | none => none
    | some (s', out) =>
      match runAux s' es with
      | none => none
      | some (s'', tr) => some (s'', (out, s'.aggressive_level) :: tr)

/-- Run a list of events from the initial state. -/
def run (es : List Ev) : Option (State × List (List PF × Int)) :=
  runAux init es

end AMPM

/-! Concrete events, traces and claim-level predicates used by the
theorems below. -/

/-- An invalid mirror slot, used as the `getD` default (out-of-range
reads never occur in the modelled code paths). -/
def blankEntry : MSHREntry := ⟨false, 0, false⟩

/-- At most one valid mirror entry per cache line: any two distinct
slots that are both valid hold different `mshr_addr` values. -/
def MirrorUnique (m : List MSHREntry) : Prop :=
  ∀ i j : Nat, i ≠ j → (m.getD i blankEntry).valid = true →
    (m.getD j blankEntry).valid = true →
    (m.getD i blankEntry).addr ≠ (m.getD j blankEntry).addr

/-- The §4.H knob table as written in the spec: `(stream_window,
prefetch_degree)` for levels 1..5 in the FDP variant, undefined
elsewhere. -/
def specKnobs (lvl : Int) : Option (Nat × Nat) :=
  if lvl = 1 then some (4, 1)
  else if lvl = 2 then some (8, 1)
  else if lvl = 3 then some (16, 2)
  else if lvl = 4 then some (32, 4)
  else if lvl = 5 then some (64, 4)
  else none

/-- The §4.H degree column as written in the spec: `prefetch_degree`
for levels 1..5 in the AMPM variant, undefined elsewhere. -/
def specDeg (lvl : Int) : Option Nat :=
  if lvl = 1 then some 1
  else if lvl = 2 then some 1
  else if lvl = 3 then some 2
  else if lvl = 4 then some 4
  else if lvl = 5 then some 4
  else none

namespace FDP

/-- A miss access whose `l2_get_way` oracle constantly answers `way`,
with occupancy 0. -/
def missEv (addr : Nat) (way : Int) : AccessEvent :=
  { addr := addr, ip := 0, hit := false,
    sets := fun _ => 0, ways := fun _ => way, occs := fun _ => 0 }

/-- An L2-hit access at way 0, with occupancy 0. -/
def hitEv (addr : Nat) : AccessEvent :=
  { addr := addr, ip := 0, hit := true,
    sets := fun _ => 0, ways := fun _ => 0, occs := fun _ => 0 }

/-- Event-stream equivalence for C9: both events carry the same
observable data and oracle answers (`addr`, `hit`, `l2_get_set`,
`l2_get_way`, MSHR occupancy), the instruction pointer being
unconstrained. -/
def EvEquiv : Ev → Ev → Prop
  | .access a, .access b =>
    a.addr = b.addr ∧ a.hit = b.hit ∧ a.sets = b.sets ∧
    a.ways = b.ways ∧ a.occs = b.occs
  | .fill f, .fill g => f = g
  | .access _, .fill _ => False
  | .fill _, .access _ => False

/-- Hit accesses walking page 1 at offsets 60, 61, 62, 63 (cache-line
addresses `(64 + off) << 6`). -/
def c2Trace : List Ev :=
  [.access (hitEv ((64 + 60) <<< 6)), .access (hitEv ((64 + 61) <<< 6)),
   .access (hitEv ((64 + 62) <<< 6)), .access (hitEv ((64 + 63) <<< 6))]

/-- The four miss accesses of scenario C6 at byte addresses
0x1000, 0x1040, 0x1080, 0x10C0 (the prefetched lines read as already
cached, which does not affect the issued prefetches). -/
def c6Trace4 : List Ev :=
  [.access (missEv 0x1000 0), .access (missEv 0x1040 0),
   .access (missEv 0x1080 0), .access (missEv 0x10C0 0)]

/-- Scenario C6 extended by the next stream access at 0x1100. -/
def c6Trace : List Ev := c6Trace4 ++ [.access (missEv 0x1100 0)]

/-- Miss accesses at 0x1000, 0x1040, 0x1080 whose prefetches are absent
from L2 (`l2_get_way = -1`), so the third access registers the two
prefetched lines 0x41 and 0x42 in the MSHR mirror. -/
def c4Pre : List Ev :=
  [.access (missEv 0x1000 (-1)), .access (missEv 0x1040 (-1)),
   .access (missEv 0x1080 (-1))]

/-- A demand fill (cache line 0x4000, never in the mirror) evicting the
non-null address 0x40: each occurrence bumps `evict_cnt` by one and
leaves every interval counter, total and mirror entry unchanged. -/
def c4FillEv : FillEvent :=
  { addr := 0x100000, set := 0, way := 0, prefetch := false, evicted := 0x40 }

/-- `c4Pre` followed by 511 demand-fill events: the next fill closes the
measurement interval. -/
def c4Trace : List Ev := c4Pre ++ List.replicate 511 (.fill c4FillEv)

/-- Iterated fill with a fixed event. -/
def iterFill (e : FillEvent) : Nat → State → State
  | 0, s => s
  | k + 1, s => iterFill e k (fill e s)

end FDP

namespace AMPM

/-- An L2-hit access at way 0, with the given cycle and a constant
occupancy oracle. -/
def hitEv (addr cycle occ : Nat) : AccessEvent :=
  { addr := addr, ip := 0, hit := true,
    sets := fun _ => 0, ways := fun _ => 0, cycle := cycle,
    occsPos := fun _ => occ, occsNeg := fun _ => occ }

/-- Event-stream equivalence for C9 (AMPM): same observables and oracle
answers including the cycle counter, `ip` unconstrained. -/
def EvEquiv : Ev → Ev → Prop
  | .access a, .access b =>
    a.addr = b.addr ∧ a.hit = b.hit ∧ a.sets = b.sets ∧ a.ways = b.ways ∧
    a.cycle = b.cycle ∧ a.occsPos = b.occsPos ∧ a.occsNeg = b.occsNeg
  | .fill f, .fill g => f = g
  | .access _, .fill _ => False
  | .fill _, .access _ => False

/-- Byte address of page 1, line offset `off`. -/
def pg1 (off : Nat) : Nat := (64 + off) <<< 6

/-- The duplicate-insertion trace: page 1 at offsets 4, 3, 2 (the third
access issues a negative-scan prefetch to line 0x41 and registers it),
64 hits on fresh pages 2..65 (evicting page 1 from the table), then
page 1 at offsets 4, 3, 2 again (re-issuing and re-registering line
0x41). -/
def c1Trace : List Ev :=
  [.access (hitEv (pg1 4) 100 0), .access (hitEv (pg1 3) 101 0),
   .access (hitEv (pg1 2) 102 0)]
  ++ ((List.range 64).map fun k => .access (hitEv ((2 + k) <<< 12) (103 + k) 0))
  ++ [.access (hitEv (pg1 4) 200 0), .access (hitEv (pg1 3) 201 0),
   .access (hitEv (pg1 2) 202 0)]

/-- Access map of page 1 after accesses at offsets 4, 3 and 2. -/
def c5Am : List Bool :=
  (((List.replicate 64 false).set 2 true).set 3 true).set 4 true

end AMPM

/-- A small state used to witness the interval-close theorems: one more
non-null eviction closes the interval (the empty tables keep the
witness computations short; no modelled code path reads past a table's
end). -/
def fdpWitState : FDP.State := { FDP.init with detectors := [], mshr := [], evict_cnt := 511 }

/-- AMPM counterpart of `fdpWitState`. -/
def ampmWitState : AMPM.State := { AMPM.init with pages := [], mshr := [], evict_cnt := 511 }

/-! # Theorems

Generic helper lemmas about the table scans, then the claims. -/

/-- A scan returns `none` exactly when no element matches. -/
theorem scanFrom_eq_none_iff {α : Type} (p : α → Bool) :
    ∀ (l : List α) (i : Nat), scanFrom p l i = none ↔ ∀ x ∈ l, p x = false := by
  intro l
  induction l with
  | nil => intro i; simp [scanFrom]
  | cons a r ih =>
    intro i
    by_cases hp : p a
    · simp [scanFrom, hp]
    · simp only [scanFrom, hp, Bool.false_eq_true, if_false, List.mem_cons]
      rw [ih (i + 1)]
      constructor
      · intro h x hx
        rcases hx with hx | hx
        · subst hx; exact Bool.eq_false_iff.mpr hp
        · exact h x hx
      · intro h x hx
        exact h x (Or.inr hx)

/-- A successful scan returns an index below `i + l.length`. -/
theorem scanFrom_some_lt {α : Type} (p : α → Bool) :
    ∀ (l : List α) (i j : Nat), scanFrom p l i = some j → j < i + l.length := by
  intro l
  induction l with
  | nil => intro i j h; simp [scanFrom] at h
  | cons a r ih =>
    intro i j h
    simp only [scanFrom] at h
    split at h
    · cases h; simp
    · have := ih (i + 1) j h
      simp only [List.length_cons]
      omega

/-- A successful scan from 0 returns an index below the length. -/
theorem scanIdx_some_lt {α : Type} (p : α → Bool) (l : List α) (j : Nat)
    (h : scanIdx p l = some j) : j < l.length := by
  have := scanFrom_some_lt p l 0 j h
  omega

/-- `getD` after `set`: the updated cell where the write landed
in-range, the old cell elsewhere. -/
theorem getD_set {α : Type} :
    ∀ (l : List α) (i k : Nat) (x d : α),
      (l.set i x).getD k d =
        if i = k ∧ i < l.length then x else l.getD k d := by
  intro l
  induction l with
  | nil => intro i k x d; simp [List.set]
  | cons a r ih =>
    intro i k x d
    cases i with
    | zero =>
      cases k with
      | zero => simp [List.set]
      | succ k' => simp [List.set, List.getD]
    | succ i' =>
      cases k with
      | zero => simp [List.set, List.getD]
      | succ k' =>
        simp only [List.set, List.getD_cons_succ, List.length_cons]
        rw [ih i' k' x d]
        by_cases hik : i' = k' ∧ i' < r.length
        · rw [if_pos hik, if_pos ⟨by omega, by omega⟩]
        · rw [if_neg hik, if_neg (by omega)]

/-- Every element `getD` returns is in the list or is the default. -/
theorem getD_mem_or {α : Type} :
    ∀ (l : List α) (k : Nat) (d : α), l.getD k d ∈ l ∨ l.getD k d = d := by
  intro l
  induction l with
  | nil => intro k d; simp [List.getD]
  | cons a r ih =>
    intro k d
    cases k with
    | zero => simp [List.getD]
    | succ k' =>
      rw [List.getD_cons_succ]
      rcases ih k' d with h | h
      · exact Or.inl (List.mem_cons_of_mem a h)
      · exact Or.inr h

/-- `getD` on a `replicate` with the replicated element as default. -/
theorem getD_replicate_self {α : Type} :
    ∀ (n k : Nat) (x : α), (List.replicate n x).getD k x = x := by
  intro n
  induction n with
  | zero => intro k x; simp [List.getD]
  | succ n' ih =>
    intro k x
    cases k with
    | zero => simp [List.replicate, List.getD]
    | succ k' => simp [List.replicate, List.getD_cons_succ, ih k' x]

/-- Replacing a mirror slot by an entry with the same `valid` flag and
address preserves mirror uniqueness. -/
theorem mirrorUnique_set_same (m : List MSHREntry) (i : Nat) (e' : MSHREntry)
    (hv : e'.valid = (m.getD i blankEntry).valid)
    (ha : e'.addr = (m.getD i blankEntry).addr)
    (hu : MirrorUnique m) : MirrorUnique (m.set i e') := by
  intro a b hab hva hvb
  simp only [getD_set] at hva hvb ⊢
  by_cases hia : i = a ∧ i < m.length <;> by_cases hib : i = b ∧ i < m.length
  · omega
  · rw [if_pos hia] at hva ⊢
    rw [if_neg hib] at hvb ⊢
    rw [ha]
    exact hu i b (by omega) (by rw [← hv]; exact hva) hvb
  · rw [if_neg hia] at hva ⊢
    rw [if_pos hib] at hvb ⊢
    rw [ha]
    intro hc
    exact hu a i (by omega) hva (by rw [← hv]; exact hvb) hc
  · rw [if_neg hia] at hva ⊢
    rw [if_neg hib] at hvb ⊢
    exact hu a b hab hva hvb

/-- Invalidating a mirror slot preserves mirror uniqueness. -/
theorem mirrorUnique_set_invalid (m : List MSHREntry) (i : Nat) (e' : MSHREntry)
    (hv : e'.valid = false)
    (hu : MirrorUnique m) : MirrorUnique (m.set i e') := by
  intro a b hab hva hvb
  simp only [getD_set] at hva hvb ⊢
  by_cases hia : i = a ∧ i < m.length <;> by_cases hib : i = b ∧ i < m.length
  · omega
  · rw [if_pos hia] at hva; rw [hv] at hva; cases hva
  · rw [if_pos hib] at hvb; rw [hv] at hvb; cases hvb
  · rw [if_neg hia] at hva ⊢
    rw [if_neg hib] at hvb ⊢
    exact hu a b hab hva hvb

/-- After a failed duplicate scan for `c`, no valid slot holds `c`. -/
theorem mshrFind_none_addr_ne (m : List MSHREntry) (c : Nat)
    (hf : mshrFind m c = none) :
    ∀ k : Nat, (m.getD k blankEntry).valid = true → (m.getD k blankEntry).addr ≠ c := by
  intro k hvk hak
  have hf' : scanFrom (fun e => e.valid && e.addr == c) m 0 = none := hf
  have hall := (scanFrom_eq_none_iff (fun e => e.valid && e.addr == c) m 0).mp hf'
  rcases getD_mem_or m k blankEntry with hm | hm
  · have := hall _ hm
    rw [hvk, hak] at this
    simp at this
  · rw [hm] at hvk
    cases hvk

/-- The FDP-style registration (duplicate scan keyed on the inserted
line itself) preserves mirror uniqueness. -/
theorem mirrorUnique_insert (m m' : List MSHREntry) (c : Nat)
    (h : mshrInsert m c c = some m') (hu : MirrorUnique m) : MirrorUnique m' := by
  unfold mshrInsert at h
  split at h
  · cases h; exact hu
  · rename_i hfind
    split at h
    · rename_i j hfree
      cases h
      intro a b hab hva hvb
      simp only [getD_set] at hva hvb ⊢
      by_cases hia : j = a ∧ j < m.length <;> by_cases hib : j = b ∧ j < m.length
      · omega
      · rw [if_pos hia] at hva ⊢
        rw [if_neg hib] at hvb ⊢
        exact fun hc => mshrFind_none_addr_ne m c hfind b hvb hc.symm
      · rw [if_neg hia] at hva ⊢
        rw [if_pos hib] at hvb ⊢
        exact fun hc => mshrFind_none_addr_ne m c hfind a hva hc
      · rw [if_neg hia] at hva ⊢
        rw [if_neg hib] at hvb ⊢
        exact hu a b hab hva hvb
    · cases h

/-- The all-invalid initial mirror is unique. -/
theorem mirrorUnique_blank : MirrorUnique (List.replicate 2048 blankEntry) := by
  intro a b hab hva hvb
  rw [getD_replicate_self] at hva
  cases hva


/-- The hit/miss accounting prelude changes neither the aggressiveness
level, the configuration knobs, the prefetch/eviction counters, the
smoothed prefetch total, nor mirror uniqueness (it can only clear a
late bit in place). -/
theorem fdp_accessCounters_spec (ev : FDP.AccessEvent) (s r : FDP.State)
    (h : FDP.accessCounters ev s = some r) :
    r.aggressive_level = s.aggressive_level ∧
    r.stream_window = s.stream_window ∧
    r.prefetch_degree = s.prefetch_degree ∧
    r.prefetch_cnt = s.prefetch_cnt ∧
    r.evict_cnt = s.evict_cnt ∧
    r.prefetch_total = s.prefetch_total ∧
    (MirrorUnique s.mshr → MirrorUnique r.mshr) := by
  unfold FDP.accessCounters at h
  split at h
  · dsimp only at h
    split at h
    · exact absurd h (by simp)
    · cases h
      split
      · exact ⟨rfl, rfl, rfl, rfl, rfl, rfl, fun hu => hu⟩
      · exact ⟨rfl, rfl, rfl, rfl, rfl, rfl, fun hu => hu⟩
  · dsimp only at h
    cases h
    split
    · split
      · rename_i i hfind
        split
        · rename_i hlate
          refine ⟨rfl, rfl, rfl, rfl, rfl, rfl, fun hu => ?_⟩
          refine mirrorUnique_set_same _ i _ rfl rfl hu
        · exact ⟨rfl, rfl, rfl, rfl, rfl, rfl, fun hu => hu⟩
      · exact ⟨rfl, rfl, rfl, rfl, rfl, rfl, fun hu => hu⟩
    · split
      · rename_i i hfind
        split
        · refine ⟨rfl, rfl, rfl, rfl, rfl, rfl, fun hu => ?_⟩
          refine mirrorUnique_set_same _ i _ rfl rfl hu
        · exact ⟨rfl, rfl, rfl, rfl, rfl, rfl, fun hu => hu⟩
      · exact ⟨rfl, rfl, rfl, rfl, rfl, rfl, fun hu => hu⟩


/-- C2 (amended): in the FDP prefetch scan, a step that takes
`pf_index` outside `[0, 63]` terminates the scan at once, with no
prefetch issued for that step (though the out-of-range `pf_index` is
stored), and every prefetch the scan does issue targets a line offset
in `[0, 63]` of the scanned page. -/
theorem c2_theorem :
    (∀ (ev : FDP.AccessEvent) (page : Nat) (d : FDP.Detector)
        (m : List MSHREntry) (k fuel : Nat),
      (d.pf_index + d.direction < 0 ∨ 63 < d.pf_index + d.direction) →
      FDP.pfLoop ev page d m k (fuel + 1) =
        some ({ d with pf_index := d.pf_index + d.direction }, m, [])) ∧
    (∀ (ev : FDP.AccessEvent) (page : Nat) (fuel : Nat) (d : FDP.Detector)
        (m : List MSHREntry) (k : Nat)
        (r : FDP.Detector × List MSHREntry × List PF),
      FDP.pfLoop ev page d m k fuel = some r →
      ∀ x ∈ r.2.2, ∃ jdx : Nat, jdx ≤ 63 ∧ x.addr = (page <<< 12) + (jdx <<< 6)) := by
  constructor
  · intro ev page d m k fuel h
    simp only [FDP.pfLoop]
    rw [if_pos h]
  · intro ev page fuel
    induction fuel with
    | zero =>
      intro d m k r h x hx
      simp only [FDP.pfLoop] at h
      cases h
      simp at hx
    | succ n ih =>
      intro d m k r h x hx
      simp only [FDP.pfLoop] at h
      split at h
      · cases h
        simp at hx
      · rename_i hrange
        push_neg at hrange
        split at h
        · rcases Option.map_eq_some'.mp h with ⟨r', hr', hrr⟩
          subst hrr
          rcases List.mem_cons.mp hx with hx | hx
          · subst hx
            exact ⟨(d.pf_index + d.direction).toNat, by omega, rfl⟩
          · exact ih _ _ (k + 1) r' hr' x hx
        · rcases Option.map_eq_some'.mp h with ⟨r', hr', hrr⟩
          subst hrr
          rcases List.mem_cons.mp hx with hx | hx
          · subst hx
            exact ⟨(d.pf_index + d.direction).toNat, by omega, rfl⟩
          · split at hr'
            · exact ih _ _ (k + 1) r' hr' x hx
            · split at hr'
              · exact ih _ _ (k + 1) r' hr' x hx
              · exact absurd hr' (by simp)

set_option maxRecDepth 1000000 in
/-- C2 counterexample: after the four hit accesses of `FDP.c2Trace`
(page 1, offsets 60, 61, 62, 63, default `stream_window = 16` and
`prefetch_degree = 2`), the detector stores `pf_index = 64`, so the
stored `pf_index` of a reachable state leaves `[-1, 63]`. -/
theorem c2_counterexample :
    ¬ (∀ (es : List FDP.Ev) (s : FDP.State) (tr : List (List PF × Int)),
        FDP.run es = some (s, tr) →
        ∀ i : Nat, -1 ≤ (s.detectors.getD i ⟨0, 0, 0, -1⟩).pf_index ∧
          (s.detectors.getD i ⟨0, 0, 0, -1⟩).pf_index ≤ 63) := by
  intro h
  have hrun : (FDP.run FDP.c2Trace).map
      (fun p => (p.1.detectors.getD 0 ⟨0, 0, 0, -1⟩).pf_index) = some 64 := by
    decide
  rcases Option.map_eq_some'.mp hrun with ⟨⟨s, tr⟩, hr, hidx⟩
  have h2 := (h FDP.c2Trace s tr hr 0).2
  simp only at hidx
  rw [hidx] at h2
  exact absurd h2 (by decide)

/-- C2 witness: a concrete out-of-range step (detector at
`pf_index = 63`, direction `+1`) terminates the scan with no issued
prefetch and stores `pf_index = 64`. -/
theorem c2_witness :
    FDP.pfLoop (FDP.hitEv 0) 1 ⟨1, 1, 2, 63⟩ [] 0 2 = some (⟨1, 1, 2, 64⟩, [], []) := by
  exact c2_theorem.1 (FDP.hitEv 0) 1 ⟨1, 1, 2, 63⟩ [] 0 1 (by decide)

/-- C3 (amended): when a prefetch is to be registered in the MSHR
mirror (its line is not yet tracked) and no invalid slot exists, the
registration is not silently dropped: it hits the failing
`assert(mshr_index < MSHR_SIZE)`, modelled as `none`. -/
theorem c3_theorem :
    ∀ (m : List MSHREntry) (c1 c2 : Nat),
      (∀ e ∈ m, e.valid = true) → mshrFind m c1 = none →
      mshrInsert m c1 c2 = none := by
  intro m c1 c2 hv hf
  have hfree : mshrFree m = none := by
    show scanFrom _ m 0 = none
    exact (scanFrom_eq_none_iff _ m 0).mpr (fun x hx => by simp [hv x hx])
  simp [mshrInsert, hf, hfree]

set_option maxRecDepth 1000000 in
/-- C3 counterexample: on a mirror whose 2048 slots are all valid
(holding line 999), registering line 65 does not complete as a silent
drop leaving the mirror unchanged — the mirror-full assertion fails. -/
theorem c3_counterexample :
    ¬ (∀ (m : List MSHREntry) (c1 c2 : Nat), (∀ e ∈ m, e.valid = true) →
        mshrInsert m c1 c2 = some m) := by
  intro h
  have h1 := h (List.replicate 2048 ⟨true, 999, true⟩) 65 65
    (fun e he => by rw [List.eq_of_mem_replicate he])
  have h2 : mshrInsert (List.replicate 2048 ⟨true, 999, true⟩) 65 65 = none := by
    decide
  rw [h1] at h2
  exact Option.noConfusion h2

set_option maxRecDepth 1000000 in
/-- C3 witness: the amended statement applied to the concrete all-valid
mirror. -/
theorem c3_witness :
    mshrInsert (List.replicate 2048 ⟨true, 999, true⟩) 65 65 = none := by
  exact c3_theorem _ 65 65 (fun e he => by rw [List.eq_of_mem_replicate he])
    (by decide)

/-- C5 (amended): with a constant MSHR-occupancy oracle `c`, every
prefetch issued by the AMPM negative scan goes to L2 when `c < 12` and
to the LLC otherwise — the negative scan's threshold is 12, not the
positive scan's 8. -/
theorem c5_theorem :
    ∀ (c trig trigCl page off deg : Nat) (am : List Bool) (fuel : Nat)
      (pf : List Bool) (m : List MSHREntry) (cnt i : Nat)
      (r : List Bool × List MSHREntry × List PF),
      AMPM.negScan (fun _ => c) trig trigCl page off deg am pf m cnt i fuel = some r →
      ∀ x ∈ r.2.2, x.level = (if c < 12 then FillLevel.l2 else FillLevel.llc) := by
  intro c trig trigCl page off deg am fuel
  induction fuel with
  | zero =>
    intro pf m cnt i r h x hx
    simp only [AMPM.negScan] at h
    cases h
    simp at hx
  | succ n ih =>
    intro pf m cnt i r h x hx
    simp only [AMPM.negScan] at h
    split at h
    · cases h; simp at hx
    · split at h
      · cases h; simp at hx
      · split at h
        · cases h; simp at hx
        · split at h
          · exact ih _ _ _ _ r h x hx
          · split at h
            · exact ih _ _ _ _ r h x hx
            · split at h
              · split at h
                · split at h
                  · exact absurd h (by simp)
                  · rcases Option.map_eq_some'.mp h with ⟨r', hr', hrr⟩
                    subst hrr
                    rcases List.mem_cons.mp hx with hx | hx
                    · subst hx
                      rw [if_pos (show c < 12 by omega)]
                    · exact ih _ _ _ _ r' hr' x hx
                · rcases Option.map_eq_some'.mp h with ⟨r', hr', hrr⟩
                  subst hrr
                  rcases List.mem_cons.mp hx with hx | hx
                  · subst hx
                    rw [if_neg (show ¬ c < 12 by omega)]
                  · exact ih _ _ _ _ r' hr' x hx
              · exact ih _ _ _ _ r h x hx

set_option maxRecDepth 1000000 in
/-- C5 counterexample: at occupancy 10 the claimed rule (L2 iff
occupancy < 8, as in the positive scan) predicts an LLC prefetch, but
the negative scan triggered by page 1, offset 2 (access map 2, 3, 4)
issues its prefetch to line 0x41 at level L2. -/
theorem c5_counterexample :
    ¬ (∀ (c trig trigCl page off deg : Nat) (am : List Bool) (fuel : Nat)
        (pf : List Bool) (m : List MSHREntry) (cnt i : Nat)
        (r : List Bool × List MSHREntry × List PF),
        AMPM.negScan (fun _ => c) trig trigCl page off deg am pf m cnt i fuel = some r →
        ∀ x ∈ r.2.2, x.level = (if c < 8 then FillLevel.l2 else FillLevel.llc)) := by
  intro h
  have hmem : (AMPM.negScan (fun _ => 10) 4224 66 1 2 2 AMPM.c5Am
      (List.replicate 64 false) (List.replicate 2048 blankEntry) 0 1 16).map
      (fun r => r.2.2) = some [⟨4224, 4160, FillLevel.l2⟩] := by
    decide
  rcases hr : AMPM.negScan (fun _ => 10) 4224 66 1 2 2 AMPM.c5Am
      (List.replicate 64 false) (List.replicate 2048 blankEntry) 0 1 16 with _ | r
  · rw [hr] at hmem; exact absurd hmem (by simp)
  · rw [hr, Option.map_some', Option.some.injEq] at hmem
    have hx := h 10 4224 66 1 2 2 AMPM.c5Am 16
      (List.replicate 64 false) (List.replicate 2048 blankEntry) 0 1 r hr
      ⟨4224, 4160, FillLevel.l2⟩ (by rw [hmem]; simp)
    exact absurd hx (by decide)

set_option maxRecDepth 1000000 in
/-- C5 witness: the amended statement applied to the same concrete
negative-scan call (occupancy 10, threshold 12 gives L2). -/
theorem c5_witness :
    PF.level ⟨4224, 4160, FillLevel.l2⟩ = (if 10 < 12 then FillLevel.l2 else FillLevel.llc) := by
  have hmem : (AMPM.negScan (fun _ => 10) 4224 66 1 2 2 AMPM.c5Am
      (List.replicate 64 false) (List.replicate 2048 blankEntry) 0 1 16).map
      (fun r => r.2.2) = some [⟨4224, 4160, FillLevel.l2⟩] := by
    decide
  rcases hr : AMPM.negScan (fun _ => 10) 4224 66 1 2 2 AMPM.c5Am
      (List.replicate 64 false) (List.replicate 2048 blankEntry) 0 1 16 with _ | r
  · rw [hr] at hmem; exact absurd hmem (by simp)
  · rw [hr, Option.map_some', Option.some.injEq] at hmem
    exact c5_theorem 10 4224 66 1 2 2 AMPM.c5Am 16
      (List.replicate 64 false) (List.replicate 2048 blankEntry) 0 1 r hr
      ⟨4224, 4160, FillLevel.l2⟩ (by rw [hmem]; simp)

set_option maxRecDepth 1000000 in
/-- C6 (amended): on the fresh-FDP stream 0x1000, 0x1040, 0x1080,
0x10C0 (all misses, occupancy 0, degree 2), the detector reaches
confidence 3 and direction +1 after the fourth access, but prefetching
begins already on the third access: the third access emits 0x1040 and
0x1080 to L2, the fourth emits 0x10C0 and 0x1100, and the next stream
access at 0x1100 emits 0x1140 and 0x1180. -/
theorem c6_theorem :
    (FDP.run FDP.c6Trace4).map
      (fun p => ((p.1.detectors.getD 0 ⟨0, 0, 0, -1⟩).confidence,
        (p.1.detectors.getD 0 ⟨0, 0, 0, -1⟩).direction)) = some (3, 1) ∧
    (FDP.run FDP.c6Trace).map
      (fun p => p.2.map fun q => q.1.map fun pf => (pf.addr, pf.level)) =
      some [[], [], [(0x1040, .l2), (0x1080, .l2)], [(0x10C0, .l2), (0x1100, .l2)],
        [(0x1140, .l2), (0x1180, .l2)]] := by
  constructor
  · decide
  · decide

set_option maxRecDepth 1000000 in
/-- C6 counterexample: the event following the fourth access (the
stream access at 0x1100) emits prefetches to 0x1140 and 0x1180, not to
0x1100 and 0x1140 — 0x1100 was already prefetched by the fourth
access. -/
theorem c6_counterexample :
    ¬ (∀ (s : FDP.State) (tr : List (List PF × Int)),
        FDP.run FDP.c6Trace = some (s, tr) →
        (tr.getD 4 ([], 0)).1.map PF.addr = [0x1100, 0x1140]) := by
  intro h
  have hrun : (FDP.run FDP.c6Trace).map
      (fun p => (p.2.getD 4 ([], 0)).1.map PF.addr) = some [0x1140, 0x1180] := by
    decide
  rcases Option.map_eq_some'.mp hrun with ⟨⟨s, tr⟩, hr, hout⟩
  simp only at hout
  have h2 := h s tr hr
  rw [hout] at h2
  exact absurd h2 (by decide)

/-- C10: in both variants, `l2_cache_fill` unconditionally ends its
pollution-vector update by clearing the bit at `vh` of the installed
line — also on prefetch fills and null evictions; in particular, when a
prefetch fill evicts a non-null address whose `vh` collides with the
installed line's, the bit set for the eviction ends up cleared in the
same call. -/
theorem c10_theorem :
    (∀ (s : FDP.State) (e : FillEvent),
      (FDP.fill e s).pollution (vh (e.addr >>> 6)) = false) ∧
    (∀ (s : AMPM.State) (e : FillEvent),
      (AMPM.fill e s).pollution (vh (e.addr >>> 6)) = false) ∧
    (∀ (s : FDP.State) (e : FillEvent), e.prefetch = true → e.evicted ≠ 0 →
      vh (e.evicted >>> 6) = vh (e.addr >>> 6) →
      (FDP.fill e s).pollution (vh (e.evicted >>> 6)) = false) ∧
    (∀ (s : AMPM.State) (e : FillEvent), e.prefetch = true → e.evicted ≠ 0 →
      vh (e.evicted >>> 6) = vh (e.addr >>> 6) →
      (AMPM.fill e s).pollution (vh (e.evicted >>> 6)) = false) := by
  have h1 : ∀ (s : FDP.State) (e : FillEvent),
      (FDP.fill e s).pollution (vh (e.addr >>> 6)) = false := by
    intro s e
    simp only [FDP.fill]
    split
    · simp [FDP.close, FDP.levelStep, FDP.ewma, FDP.fillBody, upd1]
    · simp [FDP.fillBody, upd1]
  have h2 : ∀ (s : AMPM.State) (e : FillEvent),
      (AMPM.fill e s).pollution (vh (e.addr >>> 6)) = false := by
    intro s e
    simp only [AMPM.fill]
    split
    · simp [AMPM.close, AMPM.levelStep, AMPM.ewma, AMPM.fillBody, upd1]
    · simp [AMPM.fillBody, upd1]
  exact ⟨h1, h2, fun s e _ _ hv => hv ▸ h1 s e, fun s e _ _ hv => hv ▸ h2 s e⟩

set_option maxRecDepth 100000 in
/-- C10 witness: a prefetch fill of line 0 that evicts address 0x40040
(same pollution hash 0) leaves the pollution bit 0 cleared, in both
variants. -/
theorem c10_witness :
    (FDP.fill { addr := 0, set := 0, way := 0, prefetch := true, evicted := 0x40040 }
      FDP.init).pollution (vh (0x40040 >>> 6)) = false ∧
    (AMPM.fill { addr := 0, set := 0, way := 0, prefetch := true, evicted := 0x40040 }
      AMPM.init).pollution (vh (0x40040 >>> 6)) = false := by
  constructor
  · exact c10_theorem.2.2.1 FDP.init _ rfl (by decide) (by decide)
  · exact c10_theorem.2.2.2 AMPM.init _ rfl (by decide) (by decide)

/-- C7: at every interval close the aggressiveness level becomes
`clamp(level + Δ, 1, 5)`, where `Δ = updateRule` realizes exactly the
§4.H table (−1 when `acc=0 ∧ lat=1`, when `pol=1 ∧ lat=0`, or when
`acc=1 ∧ lat=1 ∧ pol=1`; +1 when `acc=2 ∧ lat=1` or
`acc=1 ∧ lat=1 ∧ pol=0`; 0 otherwise, including `acc=2 ∧ lat=0 ∧
pol=0`), in both variants. -/
theorem c7_theorem :
    (updateRule 0 1 0 = -1 ∧ updateRule 0 1 1 = -1 ∧ updateRule 0 0 1 = -1 ∧
     updateRule 1 0 1 = -1 ∧ updateRule 2 0 1 = -1 ∧ updateRule 1 1 1 = -1 ∧
     updateRule 2 1 0 = 1 ∧ updateRule 2 1 1 = 1 ∧ updateRule 1 1 0 = 1 ∧
     updateRule 0 0 0 = 0 ∧ updateRule 1 0 0 = 0 ∧ updateRule 2 0 0 = 0) ∧
    (∀ s : FDP.State, (FDP.levelStep s).aggressive_level =
      clamp15 (s.aggressive_level + updateRule (accLevelOf (FDP.accMetric s))
        (latLevelOf (FDP.latMetric s)) (polLevelOf (FDP.polMetric s)))) ∧
    (∀ s : AMPM.State, (AMPM.levelStep s).aggressive_level =
      clamp15 (s.aggressive_level + updateRule (accLevelOf (AMPM.accMetric s))
        (latLevelOf (AMPM.latMetric s)) (polLevelOf (AMPM.polMetric s)))) ∧
    (∀ (s : FDP.State) (e : FillEvent), (FDP.fillBody e s).evict_cnt = 512 →
      FDP.fill e s = FDP.levelStep (FDP.ewma { FDP.fillBody e s with evict_cnt := 0 })) ∧
    (∀ (s : AMPM.State) (e : FillEvent), (AMPM.fillBody e s).evict_cnt = 512 →
      AMPM.fill e s = AMPM.levelStep (AMPM.ewma { AMPM.fillBody e s with evict_cnt := 0 })) := by
  refine ⟨by decide, fun s => rfl, fun s => rfl, ?_, ?_⟩
  · intro s e h
    simp only [FDP.fill, FDP.close]
    rw [if_pos h]
  · intro s e h
    simp only [AMPM.fill, AMPM.close]
    rw [if_pos h]

/-- C7 witness: the close happens, and realizes the level update, on a
concrete state at `evict_cnt = 511` receiving one more non-null
eviction. -/
theorem c7_witness :
    FDP.fill FDP.c4FillEv fdpWitState =
      FDP.levelStep (FDP.ewma { FDP.fillBody FDP.c4FillEv fdpWitState with evict_cnt := 0 }) ∧
    AMPM.fill FDP.c4FillEv ampmWitState =
      AMPM.levelStep (AMPM.ewma { AMPM.fillBody FDP.c4FillEv ampmWitState with evict_cnt := 0 }) := by
  constructor
  · exact c7_theorem.2.2.2.1 fdpWitState FDP.c4FillEv (by decide)
  · exact c7_theorem.2.2.2.2 ampmWitState FDP.c4FillEv (by decide)


/-- The FDP prefetch-issue loop preserves mirror uniqueness: every
mirror modification it makes is a registration keyed on the inserted
line. -/
theorem fdp_pfLoop_unique (ev : FDP.AccessEvent) (page : Nat) :
    ∀ (fuel : Nat) (d : FDP.Detector) (m : List MSHREntry) (k : Nat)
      (r : FDP.Detector × List MSHREntry × List PF),
      FDP.pfLoop ev page d m k fuel = some r →
      MirrorUnique m → MirrorUnique r.2.1 := by
  intro fuel
  induction fuel with
  | zero =>
    intro d m k r h hu
    simp only [FDP.pfLoop] at h
    cases h
    exact hu
  | succ n ih =>
    intro d m k r h hu
    simp only [FDP.pfLoop] at h
    split at h
    · cases h; exact hu
    · split at h
      · rcases Option.map_eq_some'.mp h with ⟨r', hr', hrr⟩
        subst hrr
        exact ih _ _ _ r' hr' hu
      · rcases Option.map_eq_some'.mp h with ⟨r', hr', hrr⟩
        subst hrr
        split at hr'
        · exact ih _ _ _ r' hr' hu
        · split at hr'
          · rename_i m' hins
            exact ih _ _ _ r' hr' (mirrorUnique_insert _ _ _ hins hu)
          · exact absurd hr' (by simp)

/-- Detector lookup/allocation only touches the detector table and the
replacement index. -/
theorem fdp_detectorLookup_spec (s : FDP.State) (page off : Nat) :
    (FDP.detectorLookup s page off).2.aggressive_level = s.aggressive_level ∧
    (FDP.detectorLookup s page off).2.stream_window = s.stream_window ∧
    (FDP.detectorLookup s page off).2.prefetch_degree = s.prefetch_degree ∧
    (FDP.detectorLookup s page off).2.prefetch_cnt = s.prefetch_cnt ∧
    (FDP.detectorLookup s page off).2.evict_cnt = s.evict_cnt ∧
    (FDP.detectorLookup s page off).2.prefetch_total = s.prefetch_total ∧
    (FDP.detectorLookup s page off).2.mshr = s.mshr := by
  unfold FDP.detectorLookup
  split <;> exact ⟨rfl, rfl, rfl, rfl, rfl, rfl, rfl⟩

/-- `l2_prefetcher_operate` (FDP) changes neither the aggressiveness
level nor the configuration knobs, and preserves mirror uniqueness. -/
theorem fdp_operate_spec (ev : FDP.AccessEvent) (s s' : FDP.State)
    (out : List PF) (h : FDP.operate ev s = some (s', out)) :
    s'.aggressive_level = s.aggressive_level ∧
    s'.stream_window = s.stream_window ∧
    s'.prefetch_degree = s.prefetch_degree ∧
    s'.prefetch_cnt = s.prefetch_cnt ∧
    s'.evict_cnt = s.evict_cnt ∧
    s'.prefetch_total = s.prefetch_total ∧
    (MirrorUnique s.mshr → MirrorUnique s'.mshr) := by
  unfold FDP.operate at h
  cases hac : FDP.accessCounters ev s with
  | none => rw [hac] at h; exact absurd h (by simp)
  | some s1 =>
    rw [hac] at h
    have hspec := fdp_accessCounters_spec ev s s1 hac
    have hdl := fdp_detectorLookup_spec s1 ((ev.addr >>> 6) >>> 6) ((ev.addr >>> 6) &&& 63)
    dsimp only at h
    split at h
    · split at h
      · exact absurd h (by simp)
      · rename_i hpf
        cases h
        refine ⟨hdl.1.trans hspec.1, hdl.2.1.trans hspec.2.1,
          hdl.2.2.1.trans hspec.2.2.1,
          hdl.2.2.2.1.trans hspec.2.2.2.1,
          hdl.2.2.2.2.1.trans hspec.2.2.2.2.1,
          hdl.2.2.2.2.2.1.trans hspec.2.2.2.2.2.1, fun hu => ?_⟩
        have := fdp_pfLoop_unique ev _ _ _ _ _ _ hpf
        rw [hdl.2.2.2.2.2.2] at this
        exact this (hspec.2.2.2.2.2.2 hu)
    · cases h
      refine ⟨hdl.1.trans hspec.1, hdl.2.1.trans hspec.2.1,
        hdl.2.2.1.trans hspec.2.2.1,
        hdl.2.2.2.1.trans hspec.2.2.2.1,
        hdl.2.2.2.2.1.trans hspec.2.2.2.2.1,
        hdl.2.2.2.2.2.1.trans hspec.2.2.2.2.2.1, fun hu => ?_⟩
      show MirrorUnique (FDP.detectorLookup s1 _ _).2.mshr
      rw [hdl.2.2.2.2.2.2]
      exact hspec.2.2.2.2.2.2 hu


/-- The clamped level always lands in `[1, 5]`. -/
theorem clamp15_bounds (x : Int) : 1 ≤ clamp15 x ∧ clamp15 x ≤ 5 := by
  unfold clamp15
  split_ifs <;> omega

/-- The fill body (before the interval check) changes neither the
aggressiveness level nor the knobs, and preserves mirror uniqueness
(it can only invalidate a slot). -/
theorem fdp_fillBody_spec (e : FillEvent) (s : FDP.State) :
    (FDP.fillBody e s).aggressive_level = s.aggressive_level ∧
    (FDP.fillBody e s).stream_window = s.stream_window ∧
    (FDP.fillBody e s).prefetch_degree = s.prefetch_degree ∧
    (MirrorUnique s.mshr → MirrorUnique (FDP.fillBody e s).mshr) := by
  unfold FDP.fillBody
  dsimp only
  split <;> split <;> split <;>
    first
      | exact ⟨rfl, rfl, rfl, fun hu => hu⟩
      | exact ⟨rfl, rfl, rfl, fun hu => mirrorUnique_set_invalid _ _ _ rfl hu⟩

/-- The interval close keeps the level in `[1, 5]` and leaves the
mirror untouched. -/
theorem fdp_close_spec (s : FDP.State) :
    (1 ≤ (FDP.close s).aggressive_level ∧ (FDP.close s).aggressive_level ≤ 5) ∧
    (FDP.close s).mshr = s.mshr :=
  ⟨clamp15_bounds _, rfl⟩

/-- `l2_cache_fill` (FDP) keeps the level in `[1, 5]` and preserves
mirror uniqueness. -/
theorem fdp_fill_inv (e : FillEvent) (s : FDP.State) :
    ((1 ≤ s.aggressive_level ∧ s.aggressive_level ≤ 5) →
      1 ≤ (FDP.fill e s).aggressive_level ∧ (FDP.fill e s).aggressive_level ≤ 5) ∧
    (MirrorUnique s.mshr → MirrorUnique (FDP.fill e s).mshr) := by
  have hb := fdp_fillBody_spec e s
  unfold FDP.fill
  dsimp only
  split
  · refine ⟨fun _ => clamp15_bounds _, fun hu => ?_⟩
    have hm : (FDP.close { FDP.fillBody e s with evict_cnt := 0 }).mshr =
        (FDP.fillBody e s).mshr := rfl
    rw [hm]
    exact hb.2.2.2 hu
  · exact ⟨fun hbound => by rw [hb.1]; exact hbound, hb.2.2.2⟩

/-- One FDP event step keeps the level in `[1, 5]` and preserves mirror
uniqueness. -/
theorem fdp_step_inv (s s' : FDP.State) (e : FDP.Ev) (out : List PF)
    (h : FDP.step s e = some (s', out)) :
    ((1 ≤ s.aggressive_level ∧ s.aggressive_level ≤ 5) →
      1 ≤ s'.aggressive_level ∧ s'.aggressive_level ≤ 5) ∧
    (MirrorUnique s.mshr → MirrorUnique s'.mshr) := by
  cases e with
  | access a =>
    have hsp := fdp_operate_spec a s s' out h
    exact ⟨fun hbound => by rw [hsp.1]; exact hbound, hsp.2.2.2.2.2.2⟩
  | fill f =>
    simp only [FDP.step] at h
    cases h
    exact ⟨(fdp_fill_inv f s).1, (fdp_fill_inv f s).2⟩

/-- Running FDP events keeps the level in `[1, 5]` and preserves mirror
uniqueness. -/
theorem fdp_runAux_inv :
    ∀ (es : List FDP.Ev) (s s' : FDP.State) (tr : List (List PF × Int)),
      FDP.runAux s es = some (s', tr) →
      ((1 ≤ s.aggressive_level ∧ s.aggressive_level ≤ 5) →
        1 ≤ s'.aggressive_level ∧ s'.aggressive_level ≤ 5) ∧
      (MirrorUnique s.mshr → MirrorUnique s'.mshr) := by
  intro es
  induction es with
  | nil =>
    intro s s' tr h
    simp only [FDP.runAux] at h
    cases h
    exact ⟨fun hb => hb, fun hu => hu⟩
  | cons e es ih =>
    intro s s' tr h
    simp only [FDP.runAux] at h
    split at h
    · exact absurd h (by simp)
    · rename_i s1 out1 hstep
      split at h
      · exact absurd h (by simp)
      · rename_i s2 tr2 hrest
        cases h
        have h1 := fdp_step_inv s s1 e out1 hstep
        have h2 := ih s1 _ _ hrest
        exact ⟨fun hb => h2.1 (h1.1 hb), fun hu => h2.2 (h1.2 hu)⟩


/-- The AMPM hit/miss accounting prelude changes neither the level nor
the degree. -/
theorem ampm_accessCounters_spec (ev : AMPM.AccessEvent) (s r : AMPM.State)
    (h : AMPM.accessCounters ev s = some r) :
    r.aggressive_level = s.aggressive_level ∧
    r.prefetch_degree = s.prefetch_degree := by
  unfold AMPM.accessCounters at h
  split at h
  · dsimp only at h
    split at h
    · exact absurd h (by simp)
    · cases h
      split
      · exact ⟨rfl, rfl⟩
      · exact ⟨rfl, rfl⟩
  · dsimp only at h
    cases h
    split
    · split
      · split
        · exact ⟨rfl, rfl⟩
        · exact ⟨rfl, rfl⟩
      · exact ⟨rfl, rfl⟩
    · split
      · split
        · exact ⟨rfl, rfl⟩
        · exact ⟨rfl, rfl⟩
      · exact ⟨rfl, rfl⟩

/-- `l2_prefetcher_operate` (AMPM) changes neither the level nor the
degree. -/
theorem ampm_operate_spec (ev : AMPM.AccessEvent) (s s' : AMPM.State)
    (out : List PF) (h : AMPM.operate ev s = some (s', out)) :
    s'.aggressive_level = s.aggressive_level ∧
    s'.prefetch_degree = s.prefetch_degree := by
  unfold AMPM.operate at h
  cases hac : AMPM.accessCounters ev s with
  | none => rw [hac] at h; exact absurd h (by simp)
  | some s1 =>
    rw [hac] at h
    have hspec := ampm_accessCounters_spec ev s s1 hac
    dsimp only at h
    split at h
    · exact absurd h (by simp)
    · cases h
      exact ⟨hspec.1, hspec.2⟩

/-- The AMPM fill body changes neither the level nor the degree. -/
theorem ampm_fillBody_spec (e : FillEvent) (s : AMPM.State) :
    (AMPM.fillBody e s).aggressive_level = s.aggressive_level ∧
    (AMPM.fillBody e s).prefetch_degree = s.prefetch_degree := by
  unfold AMPM.fillBody
  dsimp only
  split <;> split <;> split <;> exact ⟨rfl, rfl⟩

/-- `l2_cache_fill` (AMPM) keeps the level in `[1, 5]`. -/
theorem ampm_fill_inv (e : FillEvent) (s : AMPM.State) :
    (1 ≤ s.aggressive_level ∧ s.aggressive_level ≤ 5) →
    1 ≤ (AMPM.fill e s).aggressive_level ∧ (AMPM.fill e s).aggressive_level ≤ 5 := by
  have hb := ampm_fillBody_spec e s
  unfold AMPM.fill
  dsimp only
  split
  · exact fun _ => clamp15_bounds _
  · exact fun hbound => by rw [hb.1]; exact hbound

/-- One AMPM event step keeps the level in `[1, 5]`. -/
theorem ampm_step_inv (s s' : AMPM.State) (e : AMPM.Ev) (out : List PF)
    (h : AMPM.step s e = some (s', out)) :
    (1 ≤ s.aggressive_level ∧ s.aggressive_level ≤ 5) →
    1 ≤ s'.aggressive_level ∧ s'.aggressive_level ≤ 5 := by
  cases e with
  | access a =>
    have hsp := ampm_operate_spec a s s' out h
    exact fun hbound => by rw [hsp.1]; exact hbound
  | fill f =>
    simp only [AMPM.step] at h
    cases h
    exact ampm_fill_inv f s

/-- Running AMPM events keeps the level in `[1, 5]`. -/
theorem ampm_runAux_inv :
    ∀ (es : List AMPM.Ev) (s s' : AMPM.State) (tr : List (List PF × Int)),
      AMPM.runAux s es = some (s', tr) →
      (1 ≤ s.aggressive_level ∧ s.aggressive_level ≤ 5) →
      1 ≤ s'.aggressive_level ∧ s'.aggressive_level ≤ 5 := by
  intro es
  induction es with
  | nil =>
    intro s s' tr h
    simp only [AMPM.runAux] at h
    cases h
    exact fun hb => hb
  | cons e es ih =>
    intro s s' tr h
    simp only [AMPM.runAux] at h
    split at h
    · exact absurd h (by simp)
    · rename_i s1 out1 hstep
      split at h
      · exact absurd h (by simp)
      · rename_i s2 tr2 hrest
        cases h
        exact fun hb => ih s1 _ _ hrest (ampm_step_inv s s1 e out1 hstep hb)


/-- For a level in `[1, 5]`, the code's knob switch agrees with the
spec's §4.H table (FDP columns). -/
theorem specKnobs_knobTable (x : Int) (hx1 : 1 ≤ x) (hx5 : x ≤ 5) (cur : Nat × Nat) :
    specKnobs x = some (FDP.knobTable x cur) := by
  have hx : x = 1 ∨ x = 2 ∨ x = 3 ∨ x = 4 ∨ x = 5 := by omega
  rcases hx with h | h | h | h | h <;> subst h <;> rfl

/-- For a level in `[1, 5]`, the code's degree switch agrees with the
spec's §4.H table (AMPM column). -/
theorem specDeg_degTable (x : Int) (hx1 : 1 ≤ x) (hx5 : x ≤ 5) (cur : Nat) :
    specDeg x = some (AMPM.degTable x cur) := by
  have hx : x = 1 ∨ x = 2 ∨ x = 3 ∨ x = 4 ∨ x = 5 := by omega
  rcases hx with h | h | h | h | h <;> subst h <;> rfl

/-- C8: in every reachable state of either variant the aggressiveness
level lies in `[1, 5]`, and after every interval close the knobs match
the §4.H table for the current level — `(stream_window,
prefetch_degree)` in FDP, `prefetch_degree` alone in AMPM. -/
theorem c8_theorem :
    (∀ (es : List FDP.Ev) (s : FDP.State) (tr : List (List PF × Int)),
      FDP.run es = some (s, tr) →
      1 ≤ s.aggressive_level ∧ s.aggressive_level ≤ 5) ∧
    (∀ (es : List AMPM.Ev) (s : AMPM.State) (tr : List (List PF × Int)),
      AMPM.run es = some (s, tr) →
      1 ≤ s.aggressive_level ∧ s.aggressive_level ≤ 5) ∧
    (∀ s : FDP.State, specKnobs ((FDP.close s).aggressive_level) =
      some ((FDP.close s).stream_window, (FDP.close s).prefetch_degree)) ∧
    (∀ s : AMPM.State, specDeg ((AMPM.close s).aggressive_level) =
      some ((AMPM.close s).prefetch_degree)) := by
  refine ⟨?_, ?_, ?_, ?_⟩
  · intro es s tr h
    exact (fdp_runAux_inv es FDP.init s tr h).1 (by decide)
  · intro es s tr h
    exact ampm_runAux_inv es AMPM.init s tr h (by decide)
  · intro s
    have hb := (fdp_close_spec s).1
    exact specKnobs_knobTable ((FDP.close s).aggressive_level) hb.1 hb.2
      ((FDP.ewma s).stream_window, (FDP.ewma s).prefetch_degree)
  · intro s
    have hb := clamp15_bounds ((AMPM.ewma s).aggressive_level +
      updateRule (accLevelOf (AMPM.accMetric (AMPM.ewma s)))
        (latLevelOf (AMPM.latMetric (AMPM.ewma s)))
        (polLevelOf (AMPM.polMetric (AMPM.ewma s))))
    exact specDeg_degTable ((AMPM.close s).aggressive_level) hb.1 hb.2
      ((AMPM.ewma s).prefetch_degree)

/-- C8 witness: the initial states (level 3) and the witness
interval-close states instantiate the four conjuncts. -/
theorem c8_witness :
    (1 ≤ FDP.init.aggressive_level ∧ FDP.init.aggressive_level ≤ 5) ∧
    (1 ≤ AMPM.init.aggressive_level ∧ AMPM.init.aggressive_level ≤ 5) ∧
    specKnobs ((FDP.close fdpWitState).aggressive_level) =
      some ((FDP.close fdpWitState).stream_window,
        (FDP.close fdpWitState).prefetch_degree) ∧
    specDeg ((AMPM.close ampmWitState).aggressive_level) =
      some ((AMPM.close ampmWitState).prefetch_degree) :=
  ⟨c8_theorem.1 [] _ _ rfl, c8_theorem.2.1 [] _ _ rfl,
   c8_theorem.2.2.1 fdpWitState, c8_theorem.2.2.2 ampmWitState⟩

/-- C1 (amended): in the FDP variant, every reachable state has at most
one valid mirror entry per cache line — the registration's duplicate
scan is keyed on the inserted line itself.  (In the AMPM variant the
duplicate scan is keyed on the triggering line instead, and the
property fails; see the counterexample.) -/
theorem c1_theorem :
    ∀ (es : List FDP.Ev) (s : FDP.State) (tr : List (List PF × Int)),
      FDP.run es = some (s, tr) → MirrorUnique s.mshr := by
  intro es s tr h
  exact (fdp_runAux_inv es FDP.init s tr h).2 mirrorUnique_blank

/-- C1 witness: the empty run reaches the initial state, whose mirror
is unique. -/
theorem c1_witness : MirrorUnique FDP.init.mshr :=
  c1_theorem [] FDP.init [] rfl

set_option maxRecDepth 1000000 in
/-- C1 counterexample: in the AMPM variant the 70-access trace
`AMPM.c1Trace` (prefetch line 0x41, evict its page from the page table
via 64 fresh pages, then re-prefetch line 0x41 before any fill) leaves
two valid mirror entries for cache line 0x41 = 65, because the
duplicate scan searched for the *triggering* line 66 instead of the
prefetched line 65. -/
theorem c1_counterexample :
    ¬ ((∀ (es : List FDP.Ev) (s : FDP.State) (tr : List (List PF × Int)),
        FDP.run es = some (s, tr) → MirrorUnique s.mshr) ∧
       (∀ (es : List AMPM.Ev) (s : AMPM.State) (tr : List (List PF × Int)),
        AMPM.run es = some (s, tr) → MirrorUnique s.mshr)) := by
  intro h
  have hrun : (AMPM.run AMPM.c1Trace).map
      (fun p => (p.1.mshr.getD 0 blankEntry, p.1.mshr.getD 1 blankEntry)) =
      some (⟨true, 65, true⟩, ⟨true, 65, true⟩) := by
    decide
  rcases Option.map_eq_some'.mp hrun with ⟨⟨s, tr⟩, hr, hproj⟩
  simp only [Prod.mk.injEq] at hproj
  have hu := h.2 AMPM.c1Trace s tr hr 0 1 (by decide)
    (by rw [hproj.1]) (by rw [hproj.2])
  rw [hproj.1, hproj.2] at hu
  exact hu rfl


/-- The FDP prefetch loop ignores the event's instruction pointer. -/
theorem fdp_pfLoop_ip (a : FDP.AccessEvent) (x : Nat) :
    ∀ (fuel : Nat) (page : Nat) (d : FDP.Detector) (m : List MSHREntry) (k : Nat),
      FDP.pfLoop { a with ip := x } page d m k fuel = FDP.pfLoop a page d m k fuel := by
  intro fuel
  induction fuel with
  | zero => intro page d m k; rfl
  | succ n ih =>
    intro page d m k
    simp only [FDP.pfLoop]
    simp only [ih]

/-- `l2_prefetcher_operate` (FDP) ignores the instruction pointer. -/
theorem fdp_operate_ip (a : FDP.AccessEvent) (x : Nat) (s : FDP.State) :
    FDP.operate { a with ip := x } s = FDP.operate a s := by
  have hac : FDP.accessCounters { a with ip := x } s = FDP.accessCounters a s := rfl
  unfold FDP.operate
  rw [hac]
  cases FDP.accessCounters a s with
  | none => rfl
  | some s1 =>
    dsimp only
    rw [fdp_pfLoop_ip a x]

/-- Equivalent FDP events (same observables and oracle answers, any
`ip`) produce the same step. -/
theorem fdp_step_equiv (e1 e2 : FDP.Ev) (he : FDP.EvEquiv e1 e2)
    (s : FDP.State) : FDP.step s e1 = FDP.step s e2 := by
  cases e1 with
  | access a =>
    cases e2 with
    | access b =>
      simp only [FDP.EvEquiv] at he
      obtain ⟨h1, h2, h3, h4, h5⟩ := he
      cases a with
      | mk A1 I1 H1 St1 W1 O1 =>
        cases b with
        | mk A2 I2 H2 St2 W2 O2 =>
          simp only at h1 h2 h3 h4 h5
          subst h1; subst h2; subst h3; subst h4; subst h5
          show FDP.operate _ _ = FDP.operate _ _
          exact fdp_operate_ip ⟨A1, I2, H1, St1, W1, O1⟩ I1 s
    | fill g => exact absurd he (by simp [FDP.EvEquiv])
  | fill f =>
    cases e2 with
    | access b => exact absurd he (by simp [FDP.EvEquiv])
    | fill g =>
      simp only [FDP.EvEquiv] at he
      subst he
      rfl

/-- Equivalent FDP event streams produce identical runs from any
state. -/
theorem fdp_runAux_equiv (es1 es2 : List FDP.Ev)
    (hf : List.Forall₂ FDP.EvEquiv es1 es2) :
    ∀ s : FDP.State, FDP.runAux s es1 = FDP.runAux s es2 := by
  induction hf with
  | nil => intro s; rfl
  | cons hx hrest ih =>
    intro s
    rename_i e1 e2 r1 r2
    simp only [FDP.runAux]
    rw [fdp_step_equiv e1 e2 hx s]
    cases FDP.step s e2 with
    | none => rfl
    | some p =>
      obtain ⟨s', out⟩ := p
      dsimp only
      rw [ih s']

/-- `l2_prefetcher_operate` (AMPM) ignores the instruction pointer. -/
theorem ampm_operate_ip (a : AMPM.AccessEvent) (x : Nat) (s : AMPM.State) :
    AMPM.operate { a with ip := x } s = AMPM.operate a s := by
  have hac : AMPM.accessCounters { a with ip := x } s = AMPM.accessCounters a s := rfl
  unfold AMPM.operate
  rw [hac]

/-- Equivalent AMPM events produce the same step. -/
theorem ampm_step_equiv (e1 e2 : AMPM.Ev) (he : AMPM.EvEquiv e1 e2)
    (s : AMPM.State) : AMPM.step s e1 = AMPM.step s e2 := by
  cases e1 with
  | access a =>
    cases e2 with
    | access b =>
      simp only [AMPM.EvEquiv] at he
      obtain ⟨h1, h2, h3, h4, h5, h6, h7⟩ := he
      cases a with
      | mk A1 I1 H1 St1 W1 C1 P1 N1 =>
        cases b with
        | mk A2 I2 H2 St2 W2 C2 P2 N2 =>
          simp only at h1 h2 h3 h4 h5 h6 h7
          subst h1; subst h2; subst h3; subst h4; subst h5; subst h6; subst h7
          show AMPM.operate _ _ = AMPM.operate _ _
          exact ampm_operate_ip ⟨A1, I2, H1, St1, W1, C1, P1, N1⟩ I1 s
    | fill g => exact absurd he (by simp [AMPM.EvEquiv])
  | fill f =>
    cases e2 with
    | access b => exact absurd he (by simp [AMPM.EvEquiv])
    | fill g =>
      simp only [AMPM.EvEquiv] at he
      subst he
      rfl

/-- Equivalent AMPM event streams produce identical runs from any
state. -/
theorem ampm_runAux_equiv (es1 es2 : List AMPM.Ev)
    (hf : List.Forall₂ AMPM.EvEquiv es1 es2) :
    ∀ s : AMPM.State, AMPM.runAux s es1 = AMPM.runAux s es2 := by
  induction hf with
  | nil => intro s; rfl
  | cons hx hrest ih =>
    intro s
    rename_i e1 e2 r1 r2
    simp only [AMPM.runAux]
    rw [ampm_step_equiv e1 e2 hx s]
    cases AMPM.step s e2 with
    | none => rfl
    | some p =>
      obtain ⟨s', out⟩ := p
      dsimp only
      rw [ih s']

/-- C9: both prefetchers are deterministic functions of the observable
event stream — two runs driven by events that agree on address, hit
flag and every oracle answer (`l2_get_set`, `l2_get_way`, MSHR
occupancy, and for AMPM the cycle counter), regardless of `ip`, produce
identical results: the same issued-prefetch sequence and the same
aggressiveness-level trace. -/
theorem c9_theorem :
    (∀ (es1 es2 : List FDP.Ev), List.Forall₂ FDP.EvEquiv es1 es2 →
      FDP.run es1 = FDP.run es2) ∧
    (∀ (es1 es2 : List AMPM.Ev), List.Forall₂ AMPM.EvEquiv es1 es2 →
      AMPM.run es1 = AMPM.run es2) :=
  ⟨fun _ _ h => fdp_runAux_equiv _ _ h FDP.init,
   fun _ _ h => ampm_runAux_equiv _ _ h AMPM.init⟩

/-- C9 witness: two one-event streams differing only in `ip` produce
identical runs, in both variants. -/
theorem c9_witness :
    FDP.run [FDP.Ev.access (FDP.missEv 0x1000 0)] =
      FDP.run [FDP.Ev.access { FDP.missEv 0x1000 0 with ip := 7 }] ∧
    AMPM.run [AMPM.Ev.access (AMPM.hitEv 0x1000 1 0)] =
      AMPM.run [AMPM.Ev.access { AMPM.hitEv 0x1000 1 0 with ip := 7 }] := by
  constructor
  · exact c9_theorem.1 _ _
      (List.Forall₂.cons ⟨rfl, rfl, rfl, rfl, rfl⟩ List.Forall₂.nil)
  · exact c9_theorem.2 _ _
      (List.Forall₂.cons ⟨rfl, rfl, rfl, rfl, rfl, rfl, rfl⟩ List.Forall₂.nil)


/-- Splitting a run at a concatenation point. -/
theorem fdp_runAux_append (es1 es2 : List FDP.Ev) :
    ∀ s : FDP.State, FDP.runAux s (es1 ++ es2) =
      (FDP.runAux s es1).bind (fun p =>
        (FDP.runAux p.1 es2).map (fun q => (q.1, p.2 ++ q.2))) := by
  induction es1 with
  | nil =>
    intro s
    simp only [List.nil_append, FDP.runAux, Option.bind_eq_bind, Option.some_bind]
    cases h : FDP.runAux s es2 with
    | none => rfl
    | some q => simp
  | cons e es ih =>
    intro s
    simp only [List.cons_append, FDP.runAux]
    cases FDP.step s e with
    | none => rfl
    | some p =>
      obtain ⟨s1, out⟩ := p
      dsimp only
      simp only [List.append_eq]
      rw [ih s1]
      cases FDP.runAux s1 es with
      | none => rfl
      | some q =>
        obtain ⟨s2, tr⟩ := q
        simp only [Option.bind_eq_bind, Option.some_bind]
        cases FDP.runAux s2 es2 with
        | none => rfl
        | some r => simp

/-- A block of identical fill events runs to the iterated fill. -/
theorem fdp_runAux_fills (e : FillEvent) :
    ∀ (k : Nat) (s : FDP.State), ∃ tr,
      FDP.runAux s (List.replicate k (.fill e)) = some (FDP.iterFill e k s, tr) := by
  intro k
  induction k with
  | zero => intro s; exact ⟨[], rfl⟩
  | succ n ih =>
    intro s
    obtain ⟨tr, htr⟩ := ih (FDP.fill e s)
    refine ⟨([], (FDP.fill e s).aggressive_level) :: tr, ?_⟩
    simp only [List.replicate, FDP.runAux, FDP.step]
    rw [htr]
    rfl

/-- One `c4FillEv` fill below the interval boundary: only `evict_cnt`
moves (among the interval counters, totals and the mirror). -/
theorem c4_fill_step (s : FDP.State)
    (hm : mshrFind s.mshr (0x100000 >>> 6) = none) (he : s.evict_cnt < 511) :
    (FDP.fill FDP.c4FillEv s).evict_cnt = s.evict_cnt + 1 ∧
    (FDP.fill FDP.c4FillEv s).prefetch_cnt = s.prefetch_cnt ∧
    (FDP.fill FDP.c4FillEv s).used_cnt = s.used_cnt ∧
    (FDP.fill FDP.c4FillEv s).prefetch_total = s.prefetch_total ∧
    (FDP.fill FDP.c4FillEv s).mshr = s.mshr := by
  unfold FDP.fill FDP.fillBody FDP.c4FillEv
  simp only [if_pos (show (0x40 : Nat) ≠ 0 by decide),
    if_neg (show ¬ (false = true) by decide), hm]
  rw [if_neg (show ¬ s.evict_cnt + 1 = 512 by omega)]
  exact ⟨rfl, rfl, rfl, rfl, rfl⟩

/-- Iterated `c4FillEv` fills below the boundary accumulate only
`evict_cnt`. -/
theorem c4_iter :
    ∀ (k : Nat) (s : FDP.State),
      mshrFind s.mshr (0x100000 >>> 6) = none → s.evict_cnt + k ≤ 511 →
      (FDP.iterFill FDP.c4FillEv k s).evict_cnt = s.evict_cnt + k ∧
      (FDP.iterFill FDP.c4FillEv k s).prefetch_cnt = s.prefetch_cnt ∧
      (FDP.iterFill FDP.c4FillEv k s).used_cnt = s.used_cnt ∧
      (FDP.iterFill FDP.c4FillEv k s).prefetch_total = s.prefetch_total ∧
      (FDP.iterFill FDP.c4FillEv k s).mshr = s.mshr := by
  intro k
  induction k with
  | zero => intro s hm he; exact ⟨rfl, rfl, rfl, rfl, rfl⟩
  | succ n ih =>
    intro s hm he
    have hstep := c4_fill_step s hm (by omega)
    have ih' := ih (FDP.fill FDP.c4FillEv s)
      (by rw [hstep.2.2.2.2]; exact hm) (by rw [hstep.1]; omega)
    refine ⟨?_, ?_, ?_, ?_, ?_⟩
    · show (FDP.iterFill FDP.c4FillEv n (FDP.fill FDP.c4FillEv s)).evict_cnt = _
      rw [ih'.1, hstep.1]; omega
    · show (FDP.iterFill FDP.c4FillEv n (FDP.fill FDP.c4FillEv s)).prefetch_cnt = _
      rw [ih'.2.1, hstep.2.1]
    · show (FDP.iterFill FDP.c4FillEv n (FDP.fill FDP.c4FillEv s)).used_cnt = _
      rw [ih'.2.2.1, hstep.2.2.1]
    · show (FDP.iterFill FDP.c4FillEv n (FDP.fill FDP.c4FillEv s)).prefetch_total = _
      rw [ih'.2.2.2.1, hstep.2.2.2.1]
    · show (FDP.iterFill FDP.c4FillEv n (FDP.fill FDP.c4FillEv s)).mshr = _
      rw [ih'.2.2.2.2, hstep.2.2.2.2]

/-- The 512th `c4FillEv` fill closes the interval; the fill body only
bumps `evict_cnt`, and the resulting prefetch total is the EWMA of the
*adjusted* prefetch count. -/
theorem c4_fill_close (s : FDP.State)
    (hm : mshrFind s.mshr (0x100000 >>> 6) = none) (he : s.evict_cnt = 511) :
    (FDP.fillBody FDP.c4FillEv s).evict_cnt = 512 ∧
    (FDP.fillBody FDP.c4FillEv s).prefetch_cnt = s.prefetch_cnt ∧
    (FDP.fillBody FDP.c4FillEv s).used_cnt = s.used_cnt ∧
    (FDP.fillBody FDP.c4FillEv s).prefetch_total = s.prefetch_total ∧
    (FDP.fillBody FDP.c4FillEv s).mshr = s.mshr ∧
    (FDP.fill FDP.c4FillEv s).prefetch_total =
      snap (1 / 2 * s.prefetch_total +
        1 / 2 * ((FDP.adjPrefetchCnt (FDP.fillBody FDP.c4FillEv s)) : Rat)) := by
  unfold FDP.fill FDP.fillBody FDP.c4FillEv
  simp only [if_pos (show (0x40 : Nat) ≠ 0 by decide),
    if_neg (show ¬ (false = true) by decide), hm]
  rw [if_pos (show s.evict_cnt + 1 = 512 by omega)]
  refine ⟨by omega, by trivial, by trivial, by trivial, by trivial, by rfl⟩

/-- Over a run of access events alone (no fills), the prefetch/evict
counters and the smoothed prefetch total never move. -/
theorem fdp_runAux_access_totals :
    ∀ (es : List FDP.Ev) (s s' : FDP.State) (tr : List (List PF × Int)),
      (∀ e ∈ es, match e with
        | FDP.Ev.access _ => True
        | FDP.Ev.fill _ => False) →
      FDP.runAux s es = some (s', tr) →
      s'.prefetch_total = s.prefetch_total ∧
      s'.prefetch_cnt = s.prefetch_cnt ∧
      s'.evict_cnt = s.evict_cnt := by
  intro es
  induction es with
  | nil =>
    intro s s' tr hall h
    simp only [FDP.runAux] at h
    cases h
    exact ⟨rfl, rfl, rfl⟩
  | cons e es ih =>
    intro s s' tr hall h
    simp only [FDP.runAux] at h
    split at h
    · exact absurd h (by simp)
    · rename_i s1 out1 hstep
      split at h
      · exact absurd h (by simp)
      · rename_i s2 tr2 hrest
        cases h
        cases e with
        | fill f => exact absurd (hall _ (List.mem_cons_self _ _)) (by simp)
        | access a =>
          have hsp := fdp_operate_spec a s s1 out1 hstep
          have hih := ih s1 _ _ (fun e he => hall e (List.mem_cons_of_mem _ he)) hrest
          exact ⟨hih.1.trans hsp.2.2.2.2.2.1, hih.2.1.trans hsp.2.2.2.1,
            hih.2.2.trans hsp.2.2.2.2.1⟩

set_option maxRecDepth 1000000 in
/-- Facts about the state reached by the three-access prefix `c4Pre`:
`used_cnt` still zero, two valid mirror entries, and the fill line
0x4000 untracked. -/
theorem c4_s3_facts :
    (FDP.run FDP.c4Pre).map (fun p =>
      (p.1.used_cnt, countValid p.1.mshr, mshrFind p.1.mshr (0x100000 >>> 6))) =
      some (0, 2, none) := by
  decide!


/-- C4 (amended): at every interval close (`evict_cnt` reaching 512)
each smoothed total is EWMA-updated with α = 0.5 and snapped to 0 below
1e-3, and all five interval counters are zeroed — but while the AMPM
variant feeds the raw interval counters into the EWMA, the FDP variant
first adds the number of valid mirror entries to the interval's
prefetch count and raises it to `used_cnt` if smaller. -/
theorem c4_theorem :
    (∀ s : AMPM.State,
      (AMPM.ewma s).used_total = snap (1 / 2 * s.used_total + 1 / 2 * (s.used_cnt : Rat)) ∧
      (AMPM.ewma s).prefetch_total =
        snap (1 / 2 * s.prefetch_total + 1 / 2 * (s.prefetch_cnt : Rat)) ∧
      (AMPM.ewma s).late_total = snap (1 / 2 * s.late_total + 1 / 2 * (s.late_cnt : Rat)) ∧
      (AMPM.ewma s).miss_total = snap (1 / 2 * s.miss_total + 1 / 2 * (s.miss_cnt : Rat)) ∧
      (AMPM.ewma s).miss_prefetch_total =
        snap (1 / 2 * s.miss_prefetch_total + 1 / 2 * (s.miss_prefetch_cnt : Rat)) ∧
      (AMPM.ewma s).used_cnt = 0 ∧ (AMPM.ewma s).prefetch_cnt = 0 ∧
      (AMPM.ewma s).late_cnt = 0 ∧ (AMPM.ewma s).miss_cnt = 0 ∧
      (AMPM.ewma s).miss_prefetch_cnt = 0) ∧
    (∀ s : FDP.State,
      (FDP.ewma s).used_total = snap (1 / 2 * s.used_total + 1 / 2 * (s.used_cnt : Rat)) ∧
      (FDP.ewma s).prefetch_total =
        snap (1 / 2 * s.prefetch_total + 1 / 2 * (FDP.adjPrefetchCnt s : Rat)) ∧
      FDP.adjPrefetchCnt s =
        (if s.prefetch_cnt + countValid s.mshr < s.used_cnt then s.used_cnt
         else s.prefetch_cnt + countValid s.mshr) ∧
      (FDP.ewma s).late_total = snap (1 / 2 * s.late_total + 1 / 2 * (s.late_cnt : Rat)) ∧
      (FDP.ewma s).miss_total = snap (1 / 2 * s.miss_total + 1 / 2 * (s.miss_cnt : Rat)) ∧
      (FDP.ewma s).miss_prefetch_total =
        snap (1 / 2 * s.miss_prefetch_total + 1 / 2 * (s.miss_prefetch_cnt : Rat)) ∧
      (FDP.ewma s).used_cnt = 0 ∧ (FDP.ewma s).prefetch_cnt = 0 ∧
      (FDP.ewma s).late_cnt = 0 ∧ (FDP.ewma s).miss_cnt = 0 ∧
      (FDP.ewma s).miss_prefetch_cnt = 0) ∧
    (∀ (s : FDP.State) (e : FillEvent), (FDP.fillBody e s).evict_cnt = 512 →
      FDP.fill e s = FDP.close { FDP.fillBody e s with evict_cnt := 0 }) ∧
    (∀ (s : AMPM.State) (e : FillEvent), (AMPM.fillBody e s).evict_cnt = 512 →
      AMPM.fill e s = AMPM.close { AMPM.fillBody e s with evict_cnt := 0 }) := by
  refine ⟨fun s => ⟨rfl, rfl, rfl, rfl, rfl, rfl, rfl, rfl, rfl, rfl⟩,
    fun s => ⟨rfl, rfl, rfl, rfl, rfl, rfl, rfl, rfl, rfl, rfl, rfl⟩, ?_, ?_⟩
  · intro s e h
    simp only [FDP.fill]
    rw [if_pos h]
  · intro s e h
    simp only [AMPM.fill]
    rw [if_pos h]

/-- C4 witness: the interval-close conjuncts applied to a concrete
state at `evict_cnt = 511` receiving one more non-null eviction. -/
theorem c4_witness :
    FDP.fill FDP.c4FillEv fdpWitState =
      FDP.close { FDP.fillBody FDP.c4FillEv fdpWitState with evict_cnt := 0 } ∧
    AMPM.fill FDP.c4FillEv ampmWitState =
      AMPM.close { AMPM.fillBody FDP.c4FillEv ampmWitState with evict_cnt := 0 } :=
  ⟨c4_theorem.2.2.1 fdpWitState FDP.c4FillEv (by decide),
   c4_theorem.2.2.2 ampmWitState FDP.c4FillEv (by decide)⟩

set_option maxRecDepth 1000000 in
set_option maxHeartbeats 2000000 in
/-- C4 counterexample: run the FDP variant over `c4Trace` (three
accesses that register two prefetches in the mirror, then 511 demand
fills); the 512th fill closes the interval with a raw interval
prefetch count of 0, yet the new prefetch total is 1, not
`snap(0.5·0 + 0.5·0) = 0` — the two still-valid mirror entries were
added to the count before the EWMA. -/
theorem c4_counterexample :
    ¬ (∀ (es : List FDP.Ev) (s : FDP.State) (tr : List (List PF × Int)) (e : FillEvent),
        FDP.run es = some (s, tr) → (FDP.fillBody e s).evict_cnt = 512 →
        (FDP.fill e s).prefetch_total =
          snap (1 / 2 * s.prefetch_total + 1 / 2 * ((FDP.fillBody e s).prefetch_cnt : Rat))) := by
  intro hclaim
  rcases Option.map_eq_some'.mp c4_s3_facts with ⟨⟨s3, tr3⟩, hrun3, hfacts⟩
  simp only [Prod.mk.injEq] at hfacts
  obtain ⟨hused, hcv, hfind⟩ := hfacts
  have hrun3' : FDP.runAux FDP.init FDP.c4Pre = some (s3, tr3) := hrun3
  have hall : ∀ e ∈ FDP.c4Pre, match e with
      | FDP.Ev.access _ => True
      | FDP.Ev.fill _ => False := by
    intro e he
    simp only [FDP.c4Pre, List.mem_cons, List.not_mem_nil, or_false] at he
    rcases he with rfl | rfl | rfl <;> trivial
  have htot := fdp_runAux_access_totals FDP.c4Pre FDP.init s3 tr3 hall hrun3'
  obtain ⟨htotal, hpc, hev⟩ := htot
  have hpc0 : s3.prefetch_cnt = 0 := hpc.trans rfl
  have hev0 : s3.evict_cnt = 0 := hev.trans rfl
  have htotal0 : s3.prefetch_total = 0 := htotal.trans rfl
  obtain ⟨trF, htrF⟩ := fdp_runAux_fills FDP.c4FillEv 511 s3
  have hiter := c4_iter 511 s3 hfind (by rw [hev0])
  have hfull : FDP.run FDP.c4Trace =
      some (FDP.iterFill FDP.c4FillEv 511 s3, tr3 ++ trF) := by
    unfold FDP.run FDP.c4Trace
    rw [fdp_runAux_append]
    rw [hrun3']
    simp only [Option.bind_eq_bind, Option.some_bind]
    rw [htrF]
    simp only [Option.map_some']
  have hclose := c4_fill_close (FDP.iterFill FDP.c4FillEv 511 s3)
    (by rw [hiter.2.2.2.2]; exact hfind)
    (by rw [hiter.1, hev0])
  have happ := hclaim FDP.c4Trace _ _ FDP.c4FillEv hfull hclose.1
  rw [hclose.2.2.2.2.2] at happ
  have hadj : FDP.adjPrefetchCnt
      (FDP.fillBody FDP.c4FillEv (FDP.iterFill FDP.c4FillEv 511 s3)) = 2 := by
    unfold FDP.adjPrefetchCnt
    rw [hclose.2.1, hclose.2.2.1, hclose.2.2.2.2.1, hiter.2.1, hiter.2.2.1,
      hiter.2.2.2.2, hpc0, hused, hcv]
    decide
  have hpt : (FDP.iterFill FDP.c4FillEv 511 s3).prefetch_total = 0 := by
    rw [hiter.2.2.2.1, htotal0]
  have hpcb : ((FDP.fillBody FDP.c4FillEv
      (FDP.iterFill FDP.c4FillEv 511 s3)).prefetch_cnt : Rat) = 0 := by
    rw [hclose.2.1, hiter.2.1, hpc0]
    norm_num
  rw [hadj, hpt, hpcb] at happ
  norm_num [snap] at happ

end DPC
